import Mathlib

/-!
Shallow embedding of the job orchestrator, progress tracker, serialization
sanitizers, request validation and token estimation of the
cf-aiservices-llmbenchmark repository (Go), together with proofs about the
claims of its specification.

Conventions of the embedding:
* Go `time.Time` values are modelled as `Int` timestamps (nanoseconds or
  seconds; only ordering and differences matter).
* Go maps keyed by job id are modelled as association lists with
  insert-replaces semantics, so keys stay unique.
* Go `float64` is modelled symbolically by `GoFloat`: a finite rational or
  one of the non-finite tags NaN / +Inf / -Inf.  The sanitizers under study
  only branch on `math.IsNaN` / `math.IsInf`, i.e. on the tag, never on
  float arithmetic, so this embedding is exact for them.
* Go `interface{}` values reaching `encoding/json` are modelled by `GoValue`.
-/

/-- Model of a Go `float64` as seen by the sanitizers: a finite value or one
of the non-finite tags.  `math.IsNaN v` is `v = nan`, `math.IsInf v 0` is
`v = posInf ∨ v = negInf`, `math.IsInf v 1` is `v = posInf`,
`math.IsInf v (-1)` is `v = negInf`. -/
inductive GoFloat where
  | finite (v : ℚ)
  | nan
  | posInf
  | negInf
  deriving DecidableEq, Repr

/-- `math.MaxFloat64 = (2 - 2^-52) · 2^1023 = 2^1024 - 2^971`, the largest
finite float64, as an exact rational. -/
def maxFloat64 : ℚ := 2 ^ (1024 : ℕ) - 2 ^ (971 : ℕ)

/-- Model of a Go `interface{}` value as traversed by the sanitizers and by
`encoding/json`.  `flt` is a `float64`; `intv` covers the Go integer kinds
(never non-finite); `raw` stands for a value of a composite type that the
sanitizers do not traverse (for example a struct such as
`ConcurrencyResult`): its flag records whether a non-finite float hides
inside it, which is what makes `json.Marshal` fail on it.  `fmt.Sprintf`
of such a composite prints as `{...}` and never equals `"+Inf"`, `"-Inf"`,
`"Inf"` or `"NaN"`, so `sanitizeAnyValue` leaves it unchanged. -/
inductive GoValue where
  | null
  | boolv (b : Bool)
  | flt (f : GoFloat)
  | intv (n : ℤ)
  | str (s : String)
  | arr (xs : List GoValue)
  | obj (fields : List (String × GoValue))
  | raw (containsNonFinite : Bool)

namespace GoValue

mutual

/-- True when the value contains a non-finite float (or a `raw` composite
hiding one); exactly the condition under which Go `json.Marshal` fails with
`json: unsupported value`. -/
def hasNonFinite : GoValue → Bool
  | null => false
  | boolv _ => false
  | flt (.finite _) => false
  | flt _ => true
  | intv _ => false
  | str _ => false
  | arr xs => hasNonFiniteList xs
  | obj fields => hasNonFiniteFields fields
  | raw b => b

/-- `hasNonFinite` over the elements of an array. -/
def hasNonFiniteList : List GoValue → Bool
  | [] => false
  | v :: vs => hasNonFinite v || hasNonFiniteList vs

/-- `hasNonFinite` over the values of an object. -/
def hasNonFiniteFields : List (String × GoValue) → Bool
  | [] => false
  | (_, v) :: ps => hasNonFinite v || hasNonFiniteFields ps

end

end GoValue

/-- `sanitizeFloatValue` (simple_job_manager.go): converts NaN and ±Inf
float values to `nil`, leaving every other value unchanged (the Go
`float32` case collapses into the single `flt` case here). -/
def sanitizeFloatValue : GoValue → GoValue
  | .flt .nan => .null
  | .flt .posInf => .null
  | .flt .negInf => .null
  | v => v

mutual

/-- The per-entry body of `sanitizeBenchmarkResult` (simple_job_manager.go):
a nested map is sanitized recursively; an array is sanitized elementwise;
every other value goes through `sanitizeFloatValue`. -/
def sanitizeEntry : GoValue → GoValue
  | .obj fields => .obj (sanitizeBenchmarkResult fields)
  | .arr xs => .arr (sanitizeItems xs)
  | v => sanitizeFloatValue v

/-- `sanitizeBenchmarkResult` (simple_job_manager.go), acting on the
key/value entries of a `map[string]interface{}`. -/
def sanitizeBenchmarkResult : List (String × GoValue) → List (String × GoValue)
  | [] => []
  | (k, v) :: rest => (k, sanitizeEntry v) :: sanitizeBenchmarkResult rest

/-- The array loop of `sanitizeBenchmarkResult`: map items are recursed
into, all other items (including nested arrays, exactly as in the Go
`switch`) only go through `sanitizeFloatValue`. -/
def sanitizeItems : List GoValue → List GoValue
  | [] => []
  | .obj m :: rest => .obj (sanitizeBenchmarkResult m) :: sanitizeItems rest
  | item :: rest => sanitizeFloatValue item :: sanitizeItems rest

end

mutual

/-- `sanitizeAnyValue` (simple_job_manager.go): aggressively sanitizes maps
and arrays recursively, maps non-finite floats to `nil`, keeps integers
(the `IsInf(float64(int))` checks never fire), and in the default case
replaces the value by `nil` exactly when `fmt.Sprintf("%v", v)` prints as
one of `"+Inf"`, `"-Inf"`, `"Inf"`, `"NaN"` — which for a string value is a
comparison of the string itself, and for a composite (`raw`) never holds. -/
def sanitizeAnyValue : GoValue → GoValue
  | .null => .null
  | .obj fields => .obj (sanitizeAnyFields fields)
  | .arr xs => .arr (sanitizeAnyItems xs)
  | .flt (.finite v) => .flt (.finite v)
  | .flt _ => .null
  | .intv n => .intv n
  | .str s =>
      if s = "+Inf" ∨ s = "-Inf" ∨ s = "Inf" ∨ s = "NaN" then .null else .str s
  | .boolv b => .boolv b
  | .raw b => .raw b

/-- `sanitizeAnyValue` over the values of an object. -/
def sanitizeAnyFields : List (String × GoValue) → List (String × GoValue)
  | [] => []
  | (k, v) :: rest => (k, sanitizeAnyValue v) :: sanitizeAnyFields rest

/-- `sanitizeAnyValue` over the elements of an array. -/
def sanitizeAnyItems : List GoValue → List GoValue
  | [] => []
  | v :: rest => sanitizeAnyValue v :: sanitizeAnyItems rest

end

/-- `Model` (server/types.go): a configured LLM model reference. -/
structure Model where
  id : String
  name : String
  provider : String
  baseURL : String
  apiKey : String
  deriving DecidableEq, Repr

/-- `BenchmarkRequest` (server/types.go): the request payload for running
benchmarks. -/
structure BenchmarkRequest where
  model1 : Model
  model2 : Option Model
  concurrencyLevels : List Int
  maxTokens : Int
  prompt : String
  numWords : Int
  deriving DecidableEq, Repr

/-- `SimpleJob` (server/simple_job_manager.go).  The unexported
`ctx`/`cancelFunc` pair is modelled by two flags: `hasCancelFunc`
(`cancelFunc != nil`) and `ctxCancelled` (the context has been cancelled,
i.e. `ctx.Done()` is signalled). -/
structure SimpleJob where
  id : String
  status : String
  progress : Int
  message : String
  result : Option GoValue
  error : String
  createdAt : Int
  completedAt : Option Int
  request : BenchmarkRequest
  hasCancelFunc : Bool
  ctxCancelled : Bool

/-- The `map[string]*SimpleJob` registry, as an association list. -/
abbrev JobMap := List (String × SimpleJob)

/-- Go map read `job, exists := jm.jobs[id]` (generic in the job type, the
two job managers of the repository share it). -/
def lookupJob {α : Type} : List (String × α) → String → Option α
  | [], _ => none
  | (k, j) :: rest, id => if k = id then some j else lookupJob rest id

/-- In-place mutation of the job stored under `id` (Go mutates the shared
job pointer under the manager lock). -/
def updateJob {α : Type} : List (String × α) → String → (α → α) → List (String × α)
  | [], _, _ => []
  | (k, j) :: rest, id, f =>
      if k = id then (k, f j) :: updateJob rest id f
      else (k, j) :: updateJob rest id f

/-- Go `delete(jm.jobs, id)`. -/
def eraseJob {α : Type} (m : List (String × α)) (id : String) : List (String × α) :=
  m.filter fun p => decide (p.1 ≠ id)

/-- Go map write `jm.jobs[id] = job`. -/
def insertJob {α : Type} (m : List (String × α)) (id : String) (j : α) :
    List (String × α) :=
  (id, j) :: eraseJob m id

/-- Number of registered jobs whose status is `"running"`. -/
def countRunning (m : JobMap) : ℕ :=
  (m.filter fun p => decide (p.2.status = "running")).length

/-- `SimpleJobManager` (server/simple_job_manager.go): the job registry and
the global active-job counter (listener bookkeeping carries no job state
and is omitted). -/
structure SimpleJobManager where
  jobs : JobMap
  activeJobCount : Int

/-- The freshly constructed manager (`NewSimpleJobManager`). -/
def SimpleJobManager.init : SimpleJobManager := { jobs := [], activeJobCount := 0 }

/-- `SimpleJobManager.CreateJob`: registers a fresh job with status
`"running"`, progress 0, message `"Starting benchmark..."`, and increments
the active counter.  `id` stands for the generated UUID and `now` for
`time.Now()`. -/
def SimpleJobManager.CreateJob (jm : SimpleJobManager) (id : String)
    (request : BenchmarkRequest) (now : Int) : SimpleJobManager :=
  { jobs := insertJob jm.jobs id
      { id := id, status := "running", progress := 0,
        message := "Starting benchmark...", result := none, error := "",
        createdAt := now, completedAt := none, request := request,
        hasCancelFunc := false, ctxCancelled := false },
    activeJobCount := jm.activeJobCount + 1 }

/-- `SimpleJobManager.SetJobContext`: stores a fresh context and cancel
function in the job (called from `RunBenchmark`). -/
def SimpleJobManager.SetJobContext (jm : SimpleJobManager) (id : String) :
    SimpleJobManager :=
  match lookupJob jm.jobs id with
  | none => jm
  | some _ =>
    { jm with jobs := updateJob jm.jobs id fun j =>
        { j with hasCancelFunc := true, ctxCancelled := false } }

/-- `SimpleJobManager.UpdateJobProgress`: updates progress and message of an
existing job; unknown ids are ignored. -/
def SimpleJobManager.UpdateJobProgress (jm : SimpleJobManager) (id : String)
    (progress : Int) (message : String) : SimpleJobManager :=
  match lookupJob jm.jobs id with
  | none => jm
  | some _ =>
    { jm with jobs := updateJob jm.jobs id fun j =>
        { j with progress := progress, message := message } }

/-- `SimpleJobManager.CompleteJob`: if the job exists (in ANY status), sets
status `"completed"`, progress 100, the success message, the result and the
completion timestamp, and decrements the active counter when positive. -/
def SimpleJobManager.CompleteJob (jm : SimpleJobManager) (id : String)
    (result : Option GoValue) (now : Int) : SimpleJobManager :=
  match lookupJob jm.jobs id with
  | none => jm
  | some _ =>
    { jobs := updateJob jm.jobs id fun j =>
        { j with
          status := "completed"
          progress := 100
          message := "Benchmark completed successfully"
          result := result
          completedAt := some now },
      activeJobCount :=
        if 0 < jm.activeJobCount then jm.activeJobCount - 1
        else jm.activeJobCount }

/-- `SimpleJobManager.FailJob`: if the job exists (in ANY status), sets
status `"failed"`, message `"Benchmark failed"`, the error text and the
completion timestamp, and decrements the active counter when positive. -/
def SimpleJobManager.FailJob (jm : SimpleJobManager) (id : String)
    (errorMsg : String) (now : Int) : SimpleJobManager :=
  match lookupJob jm.jobs id with
  | none => jm
  | some _ =>
    { jobs := updateJob jm.jobs id fun j =>
        { j with
          status := "failed"
          message := "Benchmark failed"
          error := errorMsg
          completedAt := some now },
      activeJobCount :=
        if 0 < jm.activeJobCount then jm.activeJobCount - 1
        else jm.activeJobCount }

/-- `SimpleJobManager.CancelJob`: succeeds exactly when the job exists, its
status is `"running"` and its cancel function is set; then it cancels the
context, sets status `"cancelled"` with the explicit cancellation texts and
the completion timestamp, and decrements the counter (unconditionally).
Otherwise it returns `false` and changes nothing. -/
def SimpleJobManager.CancelJob (jm : SimpleJobManager) (id : String)
    (now : Int) : Bool × SimpleJobManager :=
  match lookupJob jm.jobs id with
  | none => (false, jm)
  | some job =>
    if job.status = "running" ∧ job.hasCancelFunc then
      (true,
        { jobs := updateJob jm.jobs id fun j =>
            { j with
              ctxCancelled := true
              status := "cancelled"
              message := "Job cancelled by user"
              error := "Job cancelled by user"
              completedAt := some now },
          activeJobCount := jm.activeJobCount - 1 })
    else (false, jm)

/-- `SimpleJobManager.RemoveJob`: deletes an existing job (cancelling its
context if still running) and decrements the counter when positive. -/
def SimpleJobManager.RemoveJob (jm : SimpleJobManager) (id : String) :
    SimpleJobManager :=
  match lookupJob jm.jobs id with
  | none => jm
  | some _ =>
    { jobs := eraseJob jm.jobs id,
      activeJobCount :=
        if 0 < jm.activeJobCount then jm.activeJobCount - 1
        else jm.activeJobCount }

/-- `SimpleJobManager.CleanupOldJobs`: removes every job created before
`now - 1h`, regardless of status, without touching the counter.  Times are
in seconds here, so the cutoff is `now - 3600`. -/
def SimpleJobManager.CleanupOldJobs (jm : SimpleJobManager) (now : Int) :
    SimpleJobManager :=
  { jm with jobs := jm.jobs.filter fun p => decide (¬ p.2.createdAt < now - 3600) }

/-- The `<-ctx.Done()` branch of `SimpleJobManager.RunBenchmark`
(simple_job_manager.go lines 715–723): when the runner observes the
cancellation signal it calls `jm.FailJob(jobID, "Job cancelled by user")`. -/
def SimpleJobManager.RunBenchmarkObserveCancel (jm : SimpleJobManager)
    (id : String) (now : Int) : SimpleJobManager :=
  jm.FailJob id "Job cancelled by user" now

/-- The operations of `SimpleJobManager` that the HTTP layer and the
benchmark runner invoke (`AddJob` and the other uncalled `Task 15.2`
helpers are dead code and excluded). -/
inductive SJOp where
  | createJob (id : String) (request : BenchmarkRequest) (now : Int)
  | setJobContext (id : String)
  | updateJobProgress (id : String) (progress : Int) (message : String)
  | completeJob (id : String) (result : Option GoValue) (now : Int)
  | failJob (id : String) (errorMsg : String) (now : Int)
  | cancelJob (id : String) (now : Int)
  | removeJob (id : String)
  | cleanupOldJobs (now : Int)
  | runBenchmarkObserveCancel (id : String) (now : Int)

/-- Effect of one operation on the manager state. -/
def SJOp.apply (op : SJOp) (jm : SimpleJobManager) : SimpleJobManager :=
  match op with
  | createJob id request now => jm.CreateJob id request now
  | setJobContext id => jm.SetJobContext id
  | updateJobProgress id progress message => jm.UpdateJobProgress id progress message
  | completeJob id result now => jm.CompleteJob id result now
  | failJob id errorMsg now => jm.FailJob id errorMsg now
  | cancelJob id now => (jm.CancelJob id now).2
  | removeJob id => jm.RemoveJob id
  | cleanupOldJobs now => jm.CleanupOldJobs now
  | runBenchmarkObserveCancel id now => jm.RunBenchmarkObserveCancel id now

/-- Registry states reachable from the fresh manager by any sequence of
operations.  The side condition on `createJob` models the freshness of
`uuid.New()`. -/
inductive SJReachable : SimpleJobManager → Prop where
  | init : SJReachable SimpleJobManager.init
  | step (jm : SimpleJobManager) (op : SJOp) (h : SJReachable jm)
      (hfresh : ∀ id request now, op = .createJob id request now →
        lookupJob jm.jobs id = none) :
      SJReachable (op.apply jm)

/-- `BenchmarkJob` (async job manager, `JobManager`): the job record of the
queued→running lifecycle.  `cancelSignalled` models a pending value in the
buffered `cancelChan`. -/
structure BenchmarkJob where
  id : String
  status : String
  request : BenchmarkRequest
  results : Option GoValue
  error : Option String
  createdAt : Int
  startedAt : Option Int
  completedAt : Option Int
  cancelSignalled : Bool

/-- `JobManager` (async job manager): the registry of `BenchmarkJob`s. -/
structure JobManager where
  jobs : List (String × BenchmarkJob)

/-- `NewJobManager`. -/
def JobManager.init : JobManager := { jobs := [] }

/-- `JobManager.CreateJob`: registers a fresh job with status `"queued"`.
`id` stands for the generated UUID. -/
def JobManager.CreateJob (jm : JobManager) (id : String)
    (request : BenchmarkRequest) (now : Int) : JobManager :=
  { jobs := insertJob jm.jobs id
      { id := id, status := "queued", request := request, results := none,
        error := none, createdAt := now, startedAt := none,
        completedAt := none, cancelSignalled := false } }

/-- `JobManager.StartJob`: errors when the job is unknown or not queued;
otherwise transitions queued→running and records the start time. -/
def JobManager.StartJob (jm : JobManager) (id : String) (now : Int) :
    Except String JobManager :=
  match lookupJob jm.jobs id with
  | none => .error ("job " ++ id ++ " not found")
  | some job =>
    if job.status ≠ "queued" then
      .error ("job " ++ id ++ " is not in queued status (current: " ++ job.status ++ ")")
    else
      .ok { jobs := updateJob jm.jobs id fun j =>
        { j with status := "running", startedAt := some now } }

/-- `JobManager.CancelJob`: errors when the job is unknown or not running;
otherwise sends the cancellation signal, transitions running→cancelled and
records the completion time. -/
def JobManager.CancelJob (jm : JobManager) (id : String) (now : Int) :
    Except String JobManager :=
  match lookupJob jm.jobs id with
  | none => .error ("job " ++ id ++ " not found")
  | some job =>
    if job.status ≠ "running" then
      .error ("job " ++ id ++ " is not running (current: " ++ job.status ++ ")")
    else
      .ok { jobs := updateJob jm.jobs id fun j =>
        { j with
          cancelSignalled := true
          status := "cancelled"
          completedAt := some now } }

/-- The tail of `JobManager.executeJob` after `runBenchmarkWithProgress`
returns: under the lock it stamps `CompletedAt` and, depending on the
returned error, marks the job `"failed"` with the error or `"completed"`
with the results — unconditionally, whatever the current status is. -/
def JobManager.ExecuteJobFinish (jm : JobManager) (id : String)
    (benchErr : Option String) (results : Option GoValue) (now : Int) : JobManager :=
  { jobs := updateJob jm.jobs id fun j =>
      match benchErr with
      | some e => { j with completedAt := some now, status := "failed", error := some e }
      | none => { j with completedAt := some now, status := "completed", results := results } }

/-- `JobManager.CleanupOldJobs`: removes jobs whose completion time exists
and lies before `now - maxAge`. -/
def JobManager.CleanupOldJobs (jm : JobManager) (maxAge now : Int) : JobManager :=
  { jobs := jm.jobs.filter fun p =>
      decide (¬ (∃ t, p.2.completedAt = some t ∧ t < now - maxAge)) }

/-- The cancellation check at the top of
`JobManager.runBenchmarkWithProgress` (before any round is started): a
pending signal on `cancelChan` aborts with the error
`"job cancelled before execution"`, recording no round result. -/
def JobManager.RunBenchmarkPreCheck (jm : JobManager) (id : String) :
    Option String :=
  match lookupJob jm.jobs id with
  | some job => if job.cancelSignalled then some "job cancelled before execution" else none
  | none => none

/-- The operations of the async `JobManager`. -/
inductive JMOp where
  | createJob (id : String) (request : BenchmarkRequest) (now : Int)
  | startJob (id : String) (now : Int)
  | cancelJob (id : String) (now : Int)
  | executeJobFinish (id : String) (benchErr : Option String)
      (results : Option GoValue) (now : Int)
  | cleanupOldJobs (maxAge now : Int)

/-- Effect of one async-manager operation (the `Except` results of
`StartJob`/`CancelJob` leave the state unchanged on error). -/
def JMOp.apply (op : JMOp) (jm : JobManager) : JobManager :=
  match op with
  | createJob id request now => jm.CreateJob id request now
  | startJob id now =>
      match jm.StartJob id now with
      | .ok jm2 => jm2
      | .error _ => jm
  | cancelJob id now =>
      match jm.CancelJob id now with
      | .ok jm2 => jm2
      | .error _ => jm
  | executeJobFinish id benchErr results now =>
      jm.ExecuteJobFinish id benchErr results now
  | cleanupOldJobs maxAge now => jm.CleanupOldJobs maxAge now

/-- Async-manager states reachable by any operation sequence. -/
inductive JMReachable : JobManager → Prop where
  | init : JMReachable JobManager.init
  | step (jm : JobManager) (op : JMOp) (h : JMReachable jm) :
      JMReachable (op.apply jm)

/-- `ProgressTracker` (server/progress_tracker.go): per-job progress state
with a broadcast throttle.  `lastBroadcast` starts at the zero time. -/
structure ProgressTracker where
  jobID : String
  startTime : Int
  totalSteps : Int
  currentStep : Int
  currentModel : String
  currentConcurrency : Int
  status : String
  lastBroadcast : Int
  throttleInterval : Int

/-- One second in nanoseconds, the reference throttle interval. -/
def oneSecondNs : Int := 1000000000

/-- `NewProgressTracker`: starts at step 0, status `"running"`, throttle one
second. -/
def NewProgressTracker (jobID : String) (totalSteps : Int) (now : Int) :
    ProgressTracker :=
  { jobID := jobID, startTime := now, totalSteps := totalSteps,
    currentStep := 0, currentModel := "", currentConcurrency := 0,
    status := "running", lastBroadcast := 0,
    throttleInterval := oneSecondNs }

/-- `ProgressTracker.UpdateProgress`: always updates the internal step,
model and concurrency; broadcasts (returns `true`) only when at least
`throttleInterval` has passed since `lastBroadcast`, in which case
`lastBroadcast` is set to `now`. -/
def ProgressTracker.UpdateProgress (pt : ProgressTracker) (now : Int)
    (step : Int) (model : String) (concurrency : Int) :
    ProgressTracker × Bool :=
  let pt2 := { pt with
    currentStep := step
    currentModel := model
    currentConcurrency := concurrency }
  if pt.throttleInterval ≤ now - pt.lastBroadcast then
    ({ pt2 with lastBroadcast := now }, true)
  else (pt2, false)

/-- `ProgressTracker.SetStatus`: updates the status and always broadcasts
immediately, without touching the throttle clock. -/
def ProgressTracker.SetStatus (pt : ProgressTracker) (status : String) :
    ProgressTracker × Bool :=
  ({ pt with status := status }, true)

/-- `ProgressTracker.Complete`: terminal message, always broadcast. -/
def ProgressTracker.Complete (pt : ProgressTracker) : ProgressTracker × Bool :=
  ({ pt with status := "completed", currentStep := pt.totalSteps }, true)

/-- `ProgressTracker.Fail`: terminal message, always broadcast. -/
def ProgressTracker.Fail (pt : ProgressTracker) : ProgressTracker × Bool :=
  ({ pt with status := "failed" }, true)

/-- `ProgressTracker.Cancel`: terminal message, always broadcast. -/
def ProgressTracker.Cancel (pt : ProgressTracker) : ProgressTracker × Bool :=
  ({ pt with status := "cancelled" }, true)

/-- Go `unicode.IsSpace` (the whitespace set used by `strings.TrimSpace`
and `strings.Fields`). -/
def goIsSpace (c : Char) : Bool :=
  c = ' ' || c = '\t' || c = '\n' || c.val = 11 || c.val = 12 || c = '\r' ||
  c.val = 0x85 || c.val = 0xA0 || c.val = 0x1680 ||
  (0x2000 ≤ c.val && c.val ≤ 0x200A) || c.val = 0x2028 || c.val = 0x2029 ||
  c.val = 0x202F || c.val = 0x205F || c.val = 0x3000

/-- Go `strings.TrimSpace`. -/
def trimSpace (s : String) : String :=
  ⟨((s.toList.dropWhile goIsSpace).reverse.dropWhile goIsSpace).reverse⟩

/-- Go `len(s)`: the UTF-8 byte length of a string. -/
def goLen (s : String) : ℕ := s.utf8ByteSize

/-- The accumulator loop behind Go `strings.Fields`: splits around maximal
runs of whitespace. -/
def goFieldsAux : List Char → List Char → List String
  | [], acc => if acc = [] then [] else [⟨acc.reverse⟩]
  | c :: rest, acc =>
      if goIsSpace c then
        if acc = [] then goFieldsAux rest []
        else (⟨acc.reverse⟩ : String) :: goFieldsAux rest []
      else goFieldsAux rest (c :: acc)

/-- Go `strings.Fields`. -/
def goFields (s : String) : List String := goFieldsAux s.toList []

/-- The concurrency-level loop of `validateBenchmarkRequest`, reporting the
first out-of-range level. -/
def checkConcurrencyLevels : List Int → Option String
  | [] => none
  | c :: rest =>
      if c < 1 then some "concurrencyLevels must be at least 1"
      else if c > 100 then some "concurrencyLevels must not exceed 100"
      else checkConcurrencyLevels rest

/-- The Model2 block of `validateBenchmarkRequest`: when a second model is
provided, its id/name/baseUrl must be non-empty and its id must differ
from model1's. -/
def validateModel2 (m1 : Model) : Option Model → Option String
  | none => none
  | some m2 =>
      if m2.id = "" then some "model2.id is required when model2 is provided"
      else if m2.name = "" then some "model2.name is required when model2 is provided"
      else if m2.baseURL = "" then some "model2.baseUrl is required when model2 is provided"
      else if m1.id = m2.id then some "model1 and model2 must be different"
      else none

/-- Sequential error propagation: a Go `return err` short-circuits the rest
of the validation body. -/
def firstErr (a : Option String) (b : Option String) : Option String :=
  match a with
  | some e => some e
  | none => b

theorem firstErr_some (e : String) (b : Option String) :
    firstErr (some e) b = some e := rfl

theorem firstErr_none (b : Option String) : firstErr none b = b := rfl

/-- `validateBenchmarkRequest` (server/handlers.go): returns the first
validation error, or `none` when the request is accepted.  Error strings
keep the fixed part of the Go messages (the `%d`/`%s` interpolations are
dropped; no claim depends on them). -/
def validateBenchmarkRequest (req : BenchmarkRequest) : Option String :=
  if req.model1.id = "" then some "model1.id is required"
  else if req.model1.name = "" then some "model1.name is required"
  else if req.model1.baseURL = "" then some "model1.baseUrl is required"
  else firstErr (validateModel2 req.model1 req.model2)
    (if req.concurrencyLevels = [] then some "concurrencyLevels cannot be empty"
     else firstErr (checkConcurrencyLevels req.concurrencyLevels)
       (if req.maxTokens < 1 then some "maxTokens must be at least 1"
        else if req.maxTokens > 4096 then some "maxTokens must not exceed 4096"
        else if goLen (trimSpace req.prompt) = 0 then some "prompt cannot be empty"
        else if goLen req.prompt > 10000 then some "prompt too long (max 10000 characters)"
        else if req.numWords > 0 then
          if req.numWords < 10 then some "numWords must be at least 10 for random prompts"
          else if req.numWords > 10000 then some "numWords must not exceed 10000"
          else none
        else none))

/-- The validation gate of `AsyncBenchmarkHandler` (server/async_handlers.go):
a request failing `validateBenchmarkRequest` is answered with 400 before
`CreateJob` runs, so the registry is untouched; otherwise the job is
created and started. -/
def AsyncBenchmarkHandler (jm : JobManager) (req : BenchmarkRequest)
    (id : String) (now : Int) : JobManager × Bool :=
  match validateBenchmarkRequest req with
  | some _ => (jm, false)
  | none =>
      let jm1 := jm.CreateJob id req now
      match jm1.StartJob id now with
      | .ok jm2 => (jm2, true)
      | .error _ => (jm1, false)

/-- `estimateTokens` (internal/api, part_009): 0 for an empty or
whitespace-only fragment; otherwise `max 1 (int(float64(wordCount)*1.3))`
when the trimmed fragment has at least one whitespace-delimited word, else
`max 1 (int(float64(charCount)/3.0))`.  `int(float64(w)*1.3)` equals
`⌊13·w/10⌋` for every word count a fragment can have (the float64 product
is within 2⁻⁴⁰ of the exact rational for w < 2⁴⁰, and 13·w/10 is never
that close to a smaller integer unless it is one, in which case the
product rounds to it exactly); likewise `int(float64(c)/3.0) = ⌊c/3⌋`. -/
def estimateTokens (content : String) : ℕ :=
  if content = "" then 0
  else
    let trimmed := trimSpace content
    if goLen trimmed = 0 then 0
    else
      let wordCount := (goFields trimmed).length
      if wordCount > 0 then max 1 (13 * wordCount / 10)
      else max 1 (goLen trimmed / 3)

/-- One received chunk of a completion stream, as consumed by `AskOpenAi`:
its delta content and the optional usage metadata
`(promptTokens, completionTokens)`. -/
structure StreamChunk where
  content : String
  usage : Option (Int × Int)

/-- The running token estimate accumulated by the receive loop of
`AskOpenAi`: each chunk with non-empty content adds `estimateTokens` of it
(an empty content adds 0 either way). -/
def runningEstimate (chunks : List StreamChunk) : ℕ :=
  (chunks.map fun ch => estimateTokens ch.content).sum

/-- `lastUsage` after the receive loop of `AskOpenAi`: the usage metadata
of the last chunk that carried one. -/
def lastUsage (chunks : List StreamChunk) : Option (Int × Int) :=
  chunks.foldl (fun acc ch => match ch.usage with
    | some u => some u
    | none => acc) none

/-- The final `(completionTokens, promptTokens)` returned by `AskOpenAi`:
taken from the provider usage metadata when present, otherwise the running
estimate serves as the completion count and the prompt count stays 0. -/
def askOpenAiFinalCounts (chunks : List StreamChunk) : Int × Int :=
  match lastUsage chunks with
  | some (p, c) => (c, p)
  | none => ((runningEstimate chunks : Int), 0)

/-- JSON encoding of a `Model` (struct tags of server/types.go; `apiKey`
carries `omitempty`). -/
def encodeModel (m : Model) : GoValue :=
  .obj ([("id", .str m.id), ("name", .str m.name),
         ("provider", .str m.provider), ("baseUrl", .str m.baseURL)]
    ++ (if m.apiKey = "" then [] else [("apiKey", GoValue.str m.apiKey)]))

/-- JSON encoding of a `BenchmarkRequest`. -/
def encodeBenchmarkRequest (r : BenchmarkRequest) : GoValue :=
  .obj ([("model1", encodeModel r.model1)]
    ++ (match r.model2 with
        | some m2 => [("model2", encodeModel m2)]
        | none => [("model2", GoValue.null)])
    ++ [("concurrencyLevels", .arr (r.concurrencyLevels.map GoValue.intv)),
        ("maxTokens", .intv r.maxTokens), ("prompt", .str r.prompt),
        ("numWords", .intv r.numWords)])

/-- The zero value of `BenchmarkRequest` (what the `minimalJob` literal of
`ToJSON` leaves in the `Request` field). -/
def BenchmarkRequest.zero : BenchmarkRequest :=
  { model1 := { id := "", name := "", provider := "", baseURL := "", apiKey := "" },
    model2 := none, concurrencyLevels := [], maxTokens := 0, prompt := "",
    numWords := 0 }

/-- What `json.Marshal` sees of a `SimpleJob` (struct tags of
simple_job_manager.go: `result`, `completedAt` and `error` carry
`omitempty`; the context fields are `json:"-"`). -/
def encodeSimpleJob (job : SimpleJob) : GoValue :=
  .obj ([("id", .str job.id), ("status", .str job.status),
         ("progress", .intv job.progress), ("message", .str job.message)]
    ++ (match job.result with
        | some v => [("result", v)]
        | none => [])
    ++ (if job.error = "" then [] else [("error", GoValue.str job.error)])
    ++ [("createdAt", .intv job.createdAt)]
    ++ (match job.completedAt with
        | some t => [("completedAt", GoValue.intv t)]
        | none => [])
    ++ [("request", encodeBenchmarkRequest job.request)])

/-- The first sanitization pass of `ToJSON`: when the result is a
`map[string]interface{}` it goes through `sanitizeBenchmarkResult`,
otherwise it is kept as-is (only logged). -/
def firstPassResult : Option GoValue → Option GoValue
  | some (.obj m) => some (.obj (sanitizeBenchmarkResult m))
  | r => r

/-- `SimpleJob.ToJSON` (simple_job_manager.go): sanitize a map-shaped
result with `sanitizeBenchmarkResult`; if marshalling would still fail (a
non-finite float survives), retry from the original job with the
aggressive `sanitizeAnyValue`; if that also fails, fall back to the
reduced `minimalJob` payload that keeps only the identifying fields and an
explanatory error message (its `Result` is dropped and its `Request` is
the zero value). -/
def SimpleJob.ToJSON (job : SimpleJob) : GoValue :=
  if (encodeSimpleJob { job with result := firstPassResult job.result }).hasNonFinite then
    if (encodeSimpleJob { job with result := job.result.map sanitizeAnyValue }).hasNonFinite then
      encodeSimpleJob { job with
        result := none
        error := "Results contain invalid values and could not be serialized"
        request := BenchmarkRequest.zero }
    else encodeSimpleJob { job with result := job.result.map sanitizeAnyValue }
  else encodeSimpleJob { job with result := firstPassResult job.result }

/-- `sanitizeFloat` (server/handlers.go): +Inf becomes `math.MaxFloat64`,
-Inf becomes 0, NaN becomes 0; finite values pass through. -/
def sanitizeFloat (value : GoFloat) : GoFloat :=
  match value with
  | .posInf => .finite maxFloat64
  | .negInf => .finite 0
  | .nan => .finite 0
  | v => v

/-- `ConcurrencyResult` (server/types.go) with symbolic floats. -/
structure ConcurrencyResult where
  concurrency : Int
  generationThroughput : GoFloat
  promptThroughput : GoFloat
  minTTFT : GoFloat
  maxTTFT : GoFloat
  deriving DecidableEq, Repr

/-- The result-assembly step of `runSingleBenchmark` /
`runSingleBenchmarkWithContext` (server/handlers.go): every float field of
the appended `ConcurrencyResult` goes through `sanitizeFloat`. -/
def appendSanitizedResult (concurrency : Int)
    (generationSpeed promptThroughput minTtft maxTtft : GoFloat) :
    ConcurrencyResult :=
  { concurrency := concurrency,
    generationThroughput := sanitizeFloat generationSpeed,
    promptThroughput := sanitizeFloat promptThroughput,
    minTTFT := sanitizeFloat minTtft,
    maxTTFT := sanitizeFloat maxTtft }

/-- JSON encoding of a `ConcurrencyResult`. -/
def encodeConcurrencyResult (r : ConcurrencyResult) : GoValue :=
  .obj [("concurrency", .intv r.concurrency),
        ("generationThroughput", .flt r.generationThroughput),
        ("promptThroughput", .flt r.promptThroughput),
        ("minTtft", .flt r.minTTFT), ("maxTtft", .flt r.maxTTFT)]

/-- Keys of a registry are pairwise distinct (maintained by construction:
`insertJob` erases the key first). -/
def nodupKeys {α : Type} (m : List (String × α)) : Prop :=
  (m.map Prod.fst).Nodup

theorem eraseJob_cons {α : Type} (k : String) (j : α) (rest : List (String × α))
    (id : String) :
    eraseJob ((k, j) :: rest) id =
      if k = id then eraseJob rest id else (k, j) :: eraseJob rest id := by
  by_cases hk : k = id <;> simp [eraseJob, List.filter_cons, hk]

theorem lookupJob_updateJob {α : Type} (m : List (String × α)) (id id2 : String)
    (f : α → α) :
    lookupJob (updateJob m id f) id2 =
      if id2 = id then (lookupJob m id).map f else lookupJob m id2 := by
  induction m with
  | nil => simp [lookupJob, updateJob]
  | cons p rest ih =>
      obtain ⟨k, j⟩ := p
      by_cases hk : k = id
      · subst hk
        by_cases h2 : k = id2
        · subst h2
          simp [lookupJob, updateJob]
        · simp [lookupJob, updateJob, h2, Ne.symm h2, ih]
      · by_cases h2 : k = id2
        · subst h2
          simp [lookupJob, updateJob, hk]
        · simp [lookupJob, updateJob, hk, h2, ih]

theorem lookupJob_eraseJob {α : Type} (m : List (String × α)) (id id2 : String) :
    lookupJob (eraseJob m id) id2 =
      if id2 = id then none else lookupJob m id2 := by
  induction m with
  | nil => simp [lookupJob, eraseJob]
  | cons p rest ih =>
      obtain ⟨k, j⟩ := p
      rw [eraseJob_cons]
      by_cases hk : k = id
      · subst hk
        by_cases h2 : k = id2
        · subst h2
          simp [ih]
        · simp [lookupJob, h2, Ne.symm h2, ih]
      · by_cases h2 : k = id2
        · subst h2
          simp [hk, lookupJob]
        · simp [hk, lookupJob, h2, ih]

theorem lookupJob_insertJob {α : Type} (m : List (String × α)) (id id2 : String)
    (j : α) :
    lookupJob (insertJob m id j) id2 =
      if id2 = id then some j else lookupJob m id2 := by
  by_cases h2 : id2 = id
  · subst h2
    simp [insertJob, lookupJob]
  · simp [insertJob, lookupJob, h2, Ne.symm h2, lookupJob_eraseJob]

theorem eraseJob_of_lookup_none {α : Type} (m : List (String × α)) (id : String)
    (h : lookupJob m id = none) : eraseJob m id = m := by
  induction m with
  | nil => rfl
  | cons p rest ih =>
      obtain ⟨k, j⟩ := p
      rw [eraseJob_cons]
      by_cases hk : k = id
      · simp [lookupJob, hk] at h
      · simp [lookupJob, hk] at h
        simp [hk, ih h]

theorem mem_updateJob {α : Type} {m : List (String × α)} {id : String}
    {f : α → α} {p : String × α} (h : p ∈ updateJob m id f) :
    p ∈ m ∨ ∃ q ∈ m, q.1 = id ∧ p = (q.1, f q.2) := by
  induction m with
  | nil => simp [updateJob] at h
  | cons q rest ih =>
      obtain ⟨k, j⟩ := q
      by_cases hk : k = id
      · subst hk
        simp [updateJob] at h
        rcases h with h | h
        · exact Or.inr ⟨(k, j), by simp, rfl, by simp [h]⟩
        · rcases ih h with h2 | ⟨q, hq, hq1, hq2⟩
          · exact Or.inl (by simp [h2])
          · exact Or.inr ⟨q, by simp [hq], hq1, hq2⟩
      · simp [updateJob, hk] at h
        rcases h with h | h
        · exact Or.inl (by simp [h])
        · rcases ih h with h2 | ⟨q, hq, hq1, hq2⟩
          · exact Or.inl (by simp [h2])
          · exact Or.inr ⟨q, by simp [hq], hq1, hq2⟩

theorem map_fst_updateJob {α : Type} (m : List (String × α)) (id : String)
    (f : α → α) : (updateJob m id f).map Prod.fst = m.map Prod.fst := by
  induction m with
  | nil => rfl
  | cons p rest ih =>
      obtain ⟨k, j⟩ := p
      by_cases hk : k = id <;> simp [updateJob, hk, ih]

theorem nodupKeys_updateJob {α : Type} {m : List (String × α)} {id : String}
    {f : α → α} (h : nodupKeys m) : nodupKeys (updateJob m id f) := by
  unfold nodupKeys at h ⊢
  rw [map_fst_updateJob]
  exact h

theorem nodupKeys_filter {α : Type} {m : List (String × α)}
    (q : String × α → Bool) (h : nodupKeys m) : nodupKeys (m.filter q) := by
  unfold nodupKeys at h ⊢
  exact ((m.filter_sublist (p := q)).map Prod.fst).nodup h

theorem nodupKeys_insertJob {α : Type} {m : List (String × α)} {id : String}
    {j : α} (h : nodupKeys m) : nodupKeys (insertJob m id j) := by
  unfold nodupKeys insertJob
  simp only [List.map_cons, List.nodup_cons]
  refine ⟨?_, nodupKeys_filter _ h⟩
  intro hmem
  simp only [eraseJob, List.mem_map] at hmem
  obtain ⟨p, hp, hfst⟩ := hmem
  rw [List.mem_filter] at hp
  have h2 := hp.2
  simp at h2
  exact h2 hfst

theorem lookupJob_eq_none_iff {α : Type} (m : List (String × α)) (id : String) :
    lookupJob m id = none ↔ id ∉ m.map Prod.fst := by
  induction m with
  | nil => simp [lookupJob]
  | cons p rest ih =>
      obtain ⟨k, j⟩ := p
      by_cases hk : k = id
      · subst hk
        simp [lookupJob]
      · simp [lookupJob, hk, ih, Ne.symm hk]

theorem updateJob_of_lookup_none {α : Type} (m : List (String × α)) (id : String)
    (f : α → α) (h : lookupJob m id = none) : updateJob m id f = m := by
  induction m with
  | nil => rfl
  | cons p rest ih =>
      obtain ⟨k, j⟩ := p
      by_cases hk : k = id
      · simp [lookupJob, hk] at h
      · simp [lookupJob, hk] at h
        simp [updateJob, hk, ih h]

theorem countRunning_updateJob_preserve (m : JobMap) (id : String)
    (f : SimpleJob → SimpleJob) (hf : ∀ j, (f j).status = j.status) :
    countRunning (updateJob m id f) = countRunning m := by
  induction m with
  | nil => rfl
  | cons p rest ih =>
      obtain ⟨k, j⟩ := p
      by_cases hk : k = id <;>
        simp [updateJob, countRunning, List.filter_cons, hk, hf] at ih ⊢ <;>
        split <;> simp [ih]

theorem countRunning_updateJob_toNonRunning (m : JobMap) (id : String)
    (f : SimpleJob → SimpleJob) (j : SimpleJob) (hnd : nodupKeys m)
    (hlk : lookupJob m id = some j) (hrun : j.status = "running")
    (hf : ∀ j2, (f j2).status ≠ "running") :
    countRunning (updateJob m id f) + 1 = countRunning m := by
  induction m with
  | nil => simp [lookupJob] at hlk
  | cons p rest ih =>
      obtain ⟨k, j2⟩ := p
      have hnd2 : nodupKeys rest := by
        unfold nodupKeys at hnd ⊢
        simpa using hnd.of_cons
      by_cases hk : k = id
      · subst hk
        simp [lookupJob] at hlk
        subst hlk
        have hnone : lookupJob rest k = none := by
          rw [lookupJob_eq_none_iff]
          unfold nodupKeys at hnd
          simpa using (List.nodup_cons.mp hnd).1
        rw [updateJob, if_pos rfl, updateJob_of_lookup_none rest k f hnone]
        simp [countRunning, List.filter_cons, hrun, hf j2]
      · simp [lookupJob, hk] at hlk
        simp [updateJob, hk, countRunning, List.filter_cons] at ih ⊢
        split
        · simpa [Nat.succ_eq_add_one] using ih hnd2 hlk
        · exact ih hnd2 hlk

theorem countRunning_insertJob (m : JobMap) (id : String) (j : SimpleJob)
    (h : lookupJob m id = none) :
    countRunning (insertJob m id j) =
      (if j.status = "running" then 1 else 0) + countRunning m := by
  rw [insertJob, eraseJob_of_lookup_none m id h]
  by_cases hj : j.status = "running" <;>
    simp [countRunning, List.filter_cons, hj, Nat.add_comm]

theorem countRunning_eraseJob_running (m : JobMap) (id : String) (j : SimpleJob)
    (hnd : nodupKeys m) (hlk : lookupJob m id = some j)
    (hrun : j.status = "running") :
    countRunning (eraseJob m id) + 1 = countRunning m := by
  induction m with
  | nil => simp [lookupJob] at hlk
  | cons p rest ih =>
      obtain ⟨k, j2⟩ := p
      have hnd2 : nodupKeys rest := by
        unfold nodupKeys at hnd ⊢
        simpa using hnd.of_cons
      rw [eraseJob_cons]
      by_cases hk : k = id
      · subst hk
        simp [lookupJob] at hlk
        subst hlk
        have hnone : lookupJob rest k = none := by
          rw [lookupJob_eq_none_iff]
          unfold nodupKeys at hnd
          simpa using (List.nodup_cons.mp hnd).1
        rw [if_pos rfl, eraseJob_of_lookup_none rest k hnone]
        simp [countRunning, List.filter_cons, hrun]
      · simp [lookupJob, hk] at hlk
        simp [hk, countRunning, List.filter_cons] at ih ⊢
        split
        · simpa [Nat.succ_eq_add_one] using ih hnd2 hlk
        · exact ih hnd2 hlk

theorem countRunning_filter_keepRunning (m : JobMap) (keep : String × SimpleJob → Bool)
    (hall : ∀ p ∈ m, p.2.status = "running" → keep p = true) :
    countRunning (m.filter keep) = countRunning m := by
  induction m with
  | nil => rfl
  | cons p rest ih =>
      have hall2 : ∀ q ∈ rest, q.2.status = "running" → keep q = true :=
        fun q hq => hall q (by simp [hq])
      have ih2 := ih hall2
      by_cases hrun : p.2.status = "running"
      · have hkeep := hall p (by simp) hrun
        rw [List.filter_cons, if_pos (by simpa using hkeep)]
        unfold countRunning
        rw [List.filter_cons, List.filter_cons, if_pos (by simpa using hrun),
          if_pos (by simpa using hrun)]
        simpa [countRunning] using ih2
      · by_cases hkeep : keep p = true
        · rw [List.filter_cons, if_pos (by simpa using hkeep)]
          unfold countRunning
          rw [List.filter_cons, List.filter_cons, if_neg (by simpa using hrun),
            if_neg (by simpa using hrun)]
          exact ih2
        · rw [List.filter_cons, if_neg (by simpa using hkeep)]
          unfold countRunning
          rw [List.filter_cons, if_neg (by simpa using hrun)]
          exact ih2

theorem goLen_eq_zero_iff (s : String) : goLen s = 0 ↔ s = "" := by
  cases s with
  | mk cs =>
      simp only [goLen, String.utf8ByteSize_mk, String.utf8Len_eq_zero]
      constructor
      · intro h
        subst h
        rfl
      · intro h
        have h2 : String.mk cs = String.mk [] := h
        injection h2

theorem goFieldsAux_length_pos (l : List Char) : ∀ acc : List Char,
    ((∃ c ∈ l, goIsSpace c = false) ∨ acc ≠ []) →
    1 ≤ (goFieldsAux l acc).length := by
  induction l with
  | nil =>
      intro acc h
      rcases h with h | h
      · simp at h
      · simp [goFieldsAux, h]
  | cons c rest ih =>
      intro acc h
      by_cases hc : goIsSpace c
      · by_cases hacc : acc = []
        · subst hacc
          simp only [goFieldsAux, hc, if_true, if_pos rfl]
          apply ih []
          left
          rcases h with h | h
          · obtain ⟨c2, hc2, hc2f⟩ := h
            rcases List.mem_cons.mp hc2 with rfl | hmem
            · rw [hc] at hc2f
              cases hc2f
            · exact ⟨c2, hmem, hc2f⟩
          · exact absurd rfl h
        · simp only [goFieldsAux, hc, if_true, if_neg hacc, List.length_cons]
          exact Nat.succ_le_succ (Nat.zero_le _)
      · simp only [goFieldsAux, hc, if_false, Bool.false_eq_true]
        apply ih (c :: acc)
        right
        simp

theorem trim_has_nonspace (s : String) (h : trimSpace s ≠ "") :
    ∃ c ∈ (trimSpace s).toList, goIsSpace c = false := by
  have hlist : (trimSpace s).toList =
      ((s.toList.dropWhile goIsSpace).reverse.dropWhile goIsSpace).reverse := rfl
  have hne : ((s.toList.dropWhile goIsSpace).reverse.dropWhile goIsSpace).reverse ≠ [] := by
    intro heq
    apply h
    have : trimSpace s = ⟨[]⟩ := by
      unfold trimSpace
      rw [heq]
    exact this
  have hrevne : (s.toList.dropWhile goIsSpace).reverse.dropWhile goIsSpace ≠ [] := by
    intro heq
    apply hne
    rw [heq]
    rfl
  have hpos : 0 < ((s.toList.dropWhile goIsSpace).reverse.dropWhile goIsSpace).length :=
    List.length_pos.mpr hrevne
  have hhead := List.dropWhile_get_zero_not goIsSpace
    (s.toList.dropWhile goIsSpace).reverse hpos
  set c := ((s.toList.dropWhile goIsSpace).reverse.dropWhile goIsSpace).get ⟨0, hpos⟩
    with hc
  refine ⟨c, ?_, ?_⟩
  · rw [hlist, List.mem_reverse]
    exact List.get_mem _ 0 hpos
  · simpa using hhead

theorem goFields_length_pos (s : String) (h : trimSpace s ≠ "") :
    1 ≤ (goFields (trimSpace s)).length := by
  apply goFieldsAux_length_pos
  left
  exact trim_has_nonspace s h

theorem trimSpace_empty : trimSpace "" = "" := rfl

/-- C9 (amended): per received fragment the running estimate grows by
`estimateTokens` of the fragment, which is 0 for an empty or
whitespace-only fragment and `max 1 ⌊1.3·wordCount⌋` for every other
fragment — the character-based branch is unreachable, because a fragment
that survives trimming always contains at least one whitespace-delimited
word; at end of stream the final counts come from the provider usage
metadata when present, otherwise the running estimate becomes the
completion count (and the prompt count stays 0). -/
theorem estimateTokens_spec :
    (∀ content : String, trimSpace content = "" → estimateTokens content = 0) ∧
    (∀ content : String, trimSpace content ≠ "" →
      1 ≤ (goFields (trimSpace content)).length ∧
      estimateTokens content =
        max 1 (13 * (goFields (trimSpace content)).length / 10)) ∧
    (∀ (chunks : List StreamChunk) (ch : StreamChunk),
      runningEstimate (chunks ++ [ch]) =
        runningEstimate chunks + estimateTokens ch.content) ∧
    (∀ (chunks : List StreamChunk) (p c : Int),
      lastUsage chunks = some (p, c) → askOpenAiFinalCounts chunks = (c, p)) ∧
    (∀ chunks : List StreamChunk, lastUsage chunks = none →
      askOpenAiFinalCounts chunks = ((runningEstimate chunks : Int), 0)) := by
  refine ⟨?_, ?_, ?_, ?_, ?_⟩
  · intro content h
    by_cases hc : content = ""
    · simp [estimateTokens, hc]
    · have : goLen (trimSpace content) = 0 := (goLen_eq_zero_iff _).mpr h
      simp [estimateTokens, hc, this]
  · intro content h
    have hpos := goFields_length_pos content h
    have hcne : content ≠ "" := by
      intro hc
      rw [hc, trimSpace_empty] at h
      exact h rfl
    have hlen : ¬ goLen (trimSpace content) = 0 := by
      rw [goLen_eq_zero_iff]
      exact h
    refine ⟨hpos, ?_⟩
    simp [estimateTokens, hcne, hlen, Nat.lt_of_lt_of_le Nat.zero_lt_one hpos]
  · intro chunks ch
    simp [runningEstimate]
  · intro chunks p c h
    simp [askOpenAiFinalCounts, h]
  · intro chunks h
    simp [askOpenAiFinalCounts, h]

/-- C9 witness: the two-word fragment `"hi world"` has a non-empty trim and
its estimate is `max 1 ⌊1.3·2⌋ = 2`. -/
theorem estimateTokens_spec_witness :
    1 ≤ (goFields (trimSpace "hi world")).length ∧
    estimateTokens "hi world" =
      max 1 (13 * (goFields (trimSpace "hi world")).length / 10) :=
  estimateTokens_spec.2.1 "hi world" (by decide)

/-- C9 counterexample: the fragment `"............"` (12 bytes) has no word
boundary, so the claim predicts ≈12/3 = 4 tokens, but `estimateTokens`
takes the word branch (`strings.Fields` yields one field) and returns
`max 1 ⌊1.3⌋ = 1`. -/
theorem estimateTokens_counterexample :
    estimateTokens "............" = 1 ∧
    goLen "............" / 3 = 4 ∧ (1 : ℕ) ≠ 4 :=
  ⟨by decide, by decide, by decide⟩

theorem updateProgress_snd (pt : ProgressTracker) (now step : Int)
    (model : String) (conc : Int) :
    (pt.UpdateProgress now step model conc).2 =
      decide (pt.throttleInterval ≤ now - pt.lastBroadcast) := by
  unfold ProgressTracker.UpdateProgress
  by_cases h : pt.throttleInterval ≤ now - pt.lastBroadcast <;> simp [h]

theorem updateProgress_fst (pt : ProgressTracker) (now step : Int)
    (model : String) (conc : Int) :
    (pt.UpdateProgress now step model conc).1 =
      { pt with
        currentStep := step
        currentModel := model
        currentConcurrency := conc
        lastBroadcast :=
          if pt.throttleInterval ≤ now - pt.lastBroadcast then now
          else pt.lastBroadcast } := by
  unfold ProgressTracker.UpdateProgress
  by_cases h : pt.throttleInterval ≤ now - pt.lastBroadcast <;> simp [h]

/-- C8: progress updates always refresh the internal state but are
broadcast only when at least the throttle interval has passed since the
last successful broadcast (so two consecutive progress broadcasts are at
least one interval apart), while status and terminal messages
(`SetStatus`, `Complete`, `Fail`, `Cancel`) are always broadcast
immediately, bypassing the throttle. -/
theorem progressTracker_throttle_spec (pt : ProgressTracker)
    (now now2 step step2 : Int) (model model2 : String)
    (conc conc2 : Int) (status : String) :
    ((pt.UpdateProgress now step model conc).2 = true ↔
      pt.lastBroadcast + pt.throttleInterval ≤ now) ∧
    ((pt.UpdateProgress now step model conc).1.currentStep = step ∧
     (pt.UpdateProgress now step model conc).1.currentModel = model ∧
     (pt.UpdateProgress now step model conc).1.currentConcurrency = conc) ∧
    ((pt.UpdateProgress now step model conc).1.lastBroadcast =
      if pt.throttleInterval ≤ now - pt.lastBroadcast then now
      else pt.lastBroadcast) ∧
    ((pt.UpdateProgress now step model conc).1.throttleInterval =
      pt.throttleInterval) ∧
    ((pt.UpdateProgress now step model conc).2 = true →
      ((pt.UpdateProgress now step model conc).1.UpdateProgress
          now2 step2 model2 conc2).2 = true →
      now + pt.throttleInterval ≤ now2) ∧
    ((pt.SetStatus status).2 = true ∧ pt.Complete.2 = true ∧
     pt.Fail.2 = true ∧ pt.Cancel.2 = true) := by
  refine ⟨?_, ?_, ?_, ?_, ?_, ?_⟩
  · rw [updateProgress_snd]
    constructor
    · intro h
      have := of_decide_eq_true h
      omega
    · intro h
      apply decide_eq_true
      omega
  · rw [updateProgress_fst]
    exact ⟨rfl, rfl, rfl⟩
  · rw [updateProgress_fst]
  · rw [updateProgress_fst]
  · intro h1 h2
    rw [updateProgress_snd] at h1
    rw [updateProgress_snd, updateProgress_fst] at h2
    have hb1 := of_decide_eq_true h1
    have hb2 := of_decide_eq_true h2
    simp only [if_pos hb1] at hb2
    omega
  · exact ⟨rfl, rfl, rfl, rfl⟩

/-- C8 witness: a fresh tracker (last broadcast at the zero time)
broadcasts an update arriving at `2s`, and a second broadcast at `3s`
confirms the one-interval spacing. -/
theorem progressTracker_throttle_spec_witness :
    2 * oneSecondNs + (NewProgressTracker "job" 4 0).throttleInterval ≤
      3 * oneSecondNs :=
  (progressTracker_throttle_spec (NewProgressTracker "job" 4 0)
    (2 * oneSecondNs) (3 * oneSecondNs) 1 2 "m1" "m2" 1 2
    "running").2.2.2.2.1 (by decide) (by decide)

theorem checkConcurrencyLevels_eq_none_iff (ls : List Int) :
    checkConcurrencyLevels ls = none ↔ ∀ c ∈ ls, 1 ≤ c ∧ c ≤ 100 := by
  induction ls with
  | nil => simp [checkConcurrencyLevels]
  | cons c rest ih =>
      by_cases h1 : c < 1
      · simp only [checkConcurrencyLevels, if_pos h1]
        constructor
        · intro h
          cases h
        · intro h
          have := (h c (List.mem_cons_self c rest)).1
          omega
      · by_cases h2 : c > 100
        · simp only [checkConcurrencyLevels, if_neg h1, if_pos h2]
          constructor
          · intro h
            cases h
          · intro h
            have := (h c (List.mem_cons_self c rest)).2
            omega
        · simp only [checkConcurrencyLevels, if_neg h1, if_neg h2, ih]
          constructor
          · intro h c2 hc2
            rcases List.mem_cons.mp hc2 with rfl | hmem
            · omega
            · exact h c2 hmem
          · intro h c2 hc2
            exact h c2 (List.mem_cons_of_mem c hc2)

theorem validateModel2_eq_none_iff (m1 : Model) (o : Option Model) :
    validateModel2 m1 o = none ↔
      ∀ m2, o = some m2 →
        m2.id ≠ "" ∧ m2.name ≠ "" ∧ m2.baseURL ≠ "" ∧ m1.id ≠ m2.id := by
  cases o with
  | none => simp [validateModel2]
  | some m2 =>
      simp only [validateModel2, Option.some.injEq]
      split_ifs with h1 h2 h3 h4 <;> simp_all

set_option maxHeartbeats 2000000 in
/-- C7 (amended): a request is accepted by `validateBenchmarkRequest` iff
it satisfies the declared ranges AND the model-field requirements: besides
the numeric ranges (each concurrency level in 1..100 and a non-empty
list, maxTokens 1..4096, prompt at most 10000 bytes, positive numWords in
10..10000 — a *negative* numWords is not checked), model1's id/name/baseUrl
must be non-empty, a provided model2 needs non-empty id/name/baseUrl and an
id different from model1's, and the prompt must be non-empty *after
trimming whitespace*; a request failing validation is answered before
`CreateJob` runs, so the registry is unchanged and the job never enters
it. -/
theorem validateBenchmarkRequest_spec (req : BenchmarkRequest)
    (jm : JobManager) (id : String) (now : Int) :
    (validateBenchmarkRequest req = none ↔
      (req.model1.id ≠ "" ∧ req.model1.name ≠ "" ∧ req.model1.baseURL ≠ "" ∧
       (∀ m2, req.model2 = some m2 →
         m2.id ≠ "" ∧ m2.name ≠ "" ∧ m2.baseURL ≠ "" ∧ req.model1.id ≠ m2.id) ∧
       req.concurrencyLevels ≠ [] ∧
       (∀ c ∈ req.concurrencyLevels, 1 ≤ c ∧ c ≤ 100) ∧
       1 ≤ req.maxTokens ∧ req.maxTokens ≤ 4096 ∧
       trimSpace req.prompt ≠ "" ∧ goLen req.prompt ≤ 10000 ∧
       (0 < req.numWords → 10 ≤ req.numWords ∧ req.numWords ≤ 10000))) ∧
    (∀ e, validateBenchmarkRequest req = some e →
      AsyncBenchmarkHandler jm req id now = (jm, false)) := by
  constructor
  · unfold validateBenchmarkRequest
    cases hv : validateModel2 req.model1 req.model2 with
    | some e =>
        have hnot : ¬ (∀ m2, req.model2 = some m2 →
            m2.id ≠ "" ∧ m2.name ≠ "" ∧ m2.baseURL ≠ "" ∧
            req.model1.id ≠ m2.id) := by
          rw [← validateModel2_eq_none_iff]
          simp [hv]
        rw [firstErr_some]
        split_ifs with hA hB hC
        · exact iff_of_false (by simp) fun h => h.1 hA
        · exact iff_of_false (by simp) fun h => h.2.1 hB
        · exact iff_of_false (by simp) fun h => h.2.2.1 hC
        · exact iff_of_false (by simp) fun h => hnot h.2.2.2.1
    | none =>
        have hyes := (validateModel2_eq_none_iff req.model1 req.model2).mp hv
        rw [firstErr_none]
        cases hc : checkConcurrencyLevels req.concurrencyLevels with
        | some e =>
            have hnot : ¬ (∀ c ∈ req.concurrencyLevels, 1 ≤ c ∧ c ≤ 100) := by
              rw [← checkConcurrencyLevels_eq_none_iff]
              simp [hc]
            rw [firstErr_some]
            split_ifs with hA hB hC hD
            · exact iff_of_false (by simp) fun h => h.1 hA
            · exact iff_of_false (by simp) fun h => h.2.1 hB
            · exact iff_of_false (by simp) fun h => h.2.2.1 hC
            · exact iff_of_false (by simp) fun h => h.2.2.2.2.1 hD
            · exact iff_of_false (by simp) fun h => hnot h.2.2.2.2.2.1
        | none =>
            have hcy := (checkConcurrencyLevels_eq_none_iff
              req.concurrencyLevels).mp hc
            rw [firstErr_none]
            split_ifs with hA hB hC hD hE hF hG hH hI hJ hK
            · exact iff_of_false (by simp) fun h => h.1 hA
            · exact iff_of_false (by simp) fun h => h.2.1 hB
            · exact iff_of_false (by simp) fun h => h.2.2.1 hC
            · exact iff_of_false (by simp) fun h => h.2.2.2.2.1 hD
            · exact iff_of_false (by simp) fun h =>
                absurd h.2.2.2.2.2.2.1 (by omega)
            · exact iff_of_false (by simp) fun h =>
                absurd h.2.2.2.2.2.2.2.1 (by omega)
            · exact iff_of_false (by simp) fun h =>
                h.2.2.2.2.2.2.2.2.1 ((goLen_eq_zero_iff _).mp hG)
            · exact iff_of_false (by simp) fun h =>
                absurd h.2.2.2.2.2.2.2.2.2.1 (by omega)
            · exact iff_of_false (by simp) fun h =>
                absurd (h.2.2.2.2.2.2.2.2.2.2 hI).1 (by omega)
            · exact iff_of_false (by simp) fun h =>
                absurd (h.2.2.2.2.2.2.2.2.2.2 hI).2 (by omega)
            · refine iff_of_true rfl
                ⟨hA, hB, hC, hyes, hD, hcy, by omega, by omega,
                 fun heq => hG ((goLen_eq_zero_iff _).mpr heq), by omega,
                 fun _ => ⟨by omega, by omega⟩⟩
            · refine iff_of_true rfl
                ⟨hA, hB, hC, hyes, hD, hcy, by omega, by omega,
                 fun heq => hG ((goLen_eq_zero_iff _).mpr heq), by omega,
                 fun hpos => absurd hpos (by omega)⟩
  · intro e he
    simp [AsyncBenchmarkHandler, he]

/-- A request violating no declared range but carrying an empty
`model1.id`. -/
def reqEmptyModelId : BenchmarkRequest where
  model1 := { id := "", name := "m", provider := "", baseURL := "http://x", apiKey := "" }
  model2 := none
  concurrencyLevels := [1]
  maxTokens := 10
  prompt := "hello"
  numWords := 0

/-- C7 counterexample: `reqEmptyModelId` satisfies every range of the claim
(levels in 1..100, maxTokens in 1..4096, prompt 1..10000 chars, numWords
zero) yet `validateBenchmarkRequest` rejects it, so rejection is NOT
equivalent to a range violation. -/
theorem validateBenchmarkRequest_counterexample :
    (validateBenchmarkRequest reqEmptyModelId).isSome = true ∧
    reqEmptyModelId.concurrencyLevels ≠ [] ∧
    (∀ c ∈ reqEmptyModelId.concurrencyLevels, 1 ≤ c ∧ c ≤ 100) ∧
    1 ≤ reqEmptyModelId.maxTokens ∧ reqEmptyModelId.maxTokens ≤ 4096 ∧
    reqEmptyModelId.prompt ≠ "" ∧ goLen reqEmptyModelId.prompt ≤ 10000 ∧
    reqEmptyModelId.numWords = 0 := by
  refine ⟨by decide, by decide, by decide, by decide, by decide, by decide,
    by decide, by decide⟩

/-- A fully valid request. -/
def reqValid : BenchmarkRequest where
  model1 := { id := "m1", name := "m", provider := "", baseURL := "http://x", apiKey := "" }
  model2 := none
  concurrencyLevels := [1, 2]
  maxTokens := 50
  prompt := "hello"
  numWords := 0

/-- C7 witness: the valid request passes validation, by the amended
equivalence. -/
theorem validateBenchmarkRequest_spec_witness :
    validateBenchmarkRequest reqValid = none :=
  (validateBenchmarkRequest_spec reqValid JobManager.init "j" 0).1.mpr
    (by refine ⟨by decide, by decide, by decide, by simp [reqValid], by decide,
      by decide, by decide, by decide, by decide, by decide, by decide⟩)


theorem lookupJob_mem {α : Type} {m : List (String × α)} {id : String} {j : α}
    (h : lookupJob m id = some j) : (id, j) ∈ m := by
  induction m with
  | nil => simp [lookupJob] at h
  | cons p rest ih =>
      obtain ⟨k, j2⟩ := p
      by_cases hk : k = id
      · subst hk
        simp [lookupJob] at h
        subst h
        exact List.mem_cons_self _ _
      · simp [lookupJob, hk] at h
        exact List.mem_cons_of_mem _ (ih h)

/-- C5: `CancelJob` succeeds only when the job exists and is running (in
the SSE manager additionally only once the cancel function is installed),
in which case it signals the cancellation handle, sets status
`"cancelled"` with the explicit cancellation text, stamps the completion
time and decrements the active counter; for a terminal or unknown job it
reports failure and leaves the registry (and counter) unchanged.  The
async `JobManager.CancelJob` succeeds exactly on running jobs, with the
same effects (it has no counter). -/
theorem cancelJob_spec (jm : SimpleJobManager) (jm2 : JobManager)
    (id : String) (now : Int) :
    ((jm.CancelJob id now).1 = true →
      (lookupJob jm.jobs id).map SimpleJob.status = some "running" ∧
      (lookupJob jm.jobs id).map SimpleJob.hasCancelFunc = some true ∧
      lookupJob (jm.CancelJob id now).2.jobs id =
        (lookupJob jm.jobs id).map (fun job =>
          { job with
            ctxCancelled := true
            status := "cancelled"
            message := "Job cancelled by user"
            error := "Job cancelled by user"
            completedAt := some now }) ∧
      (jm.CancelJob id now).2.activeJobCount = jm.activeJobCount - 1) ∧
    (lookupJob jm.jobs id = none → jm.CancelJob id now = (false, jm)) ∧
    (∀ job, lookupJob jm.jobs id = some job → job.status ≠ "running" →
      jm.CancelJob id now = (false, jm)) ∧
    ((∃ jm3, jm2.CancelJob id now = Except.ok jm3) ↔
      ∃ job, lookupJob jm2.jobs id = some job ∧ job.status = "running") ∧
    (∀ jm3, jm2.CancelJob id now = Except.ok jm3 →
      ∃ job, lookupJob jm2.jobs id = some job ∧ job.status = "running" ∧
        lookupJob jm3.jobs id = some
          { job with
            cancelSignalled := true
            status := "cancelled"
            completedAt := some now }) := by
  refine ⟨?_, ?_, ?_, ?_, ?_⟩
  · intro hs
    unfold SimpleJobManager.CancelJob at hs ⊢
    cases hl : lookupJob jm.jobs id with
    | none => simp only [hl] at hs; cases hs
    | some job =>
        simp only [hl] at hs ⊢
        by_cases hcond : job.status = "running" ∧ job.hasCancelFunc = true
        · refine ⟨by simp [hcond.1], by simp [hcond.2], ?_, ?_⟩
          · simp only [if_pos hcond]
            rw [lookupJob_updateJob, if_pos rfl, hl]
          · simp only [if_pos hcond]
        · rw [if_neg hcond] at hs
          cases hs
  · intro hl
    unfold SimpleJobManager.CancelJob
    simp only [hl]
  · intro job hl hnr
    unfold SimpleJobManager.CancelJob
    simp only [hl]
    rw [if_neg (by intro hc; exact hnr hc.1)]
  · constructor
    · rintro ⟨jm3, h3⟩
      unfold JobManager.CancelJob at h3
      cases hl : lookupJob jm2.jobs id with
      | none => simp only [hl] at h3; cases h3
      | some job =>
          simp only [hl] at h3
          by_cases hr : job.status ≠ "running"
          · rw [if_pos hr] at h3; cases h3
          · push_neg at hr
            exact ⟨job, rfl, hr⟩
    · rintro ⟨job, hl, hr⟩
      unfold JobManager.CancelJob
      simp only [hl]
      rw [if_neg (by simp [hr])]
      exact ⟨_, rfl⟩
  · intro jm3 h3
    unfold JobManager.CancelJob at h3
    cases hl : lookupJob jm2.jobs id with
    | none => simp only [hl] at h3; cases h3
    | some job =>
        simp only [hl] at h3
        by_cases hr : job.status ≠ "running"
        · rw [if_pos hr] at h3; cases h3
        · push_neg at hr
          rw [if_neg (by simp [hr])] at h3
          cases h3
          refine ⟨job, rfl, hr, ?_⟩
          rw [lookupJob_updateJob, if_pos rfl, hl]
          rfl

/-- C5 witness: in the registry holding one running job `"j"` with its
cancel function installed, `CancelJob "j"` succeeds and its effects are as
stated. -/
theorem cancelJob_spec_witness :
    (lookupJob ((SimpleJobManager.init.CreateJob "j" reqValid 0).SetJobContext
      "j").jobs "j").map SimpleJob.status = some "running" ∧
    (lookupJob ((SimpleJobManager.init.CreateJob "j" reqValid 0).SetJobContext
      "j").jobs "j").map SimpleJob.hasCancelFunc = some true ∧
    lookupJob (((SimpleJobManager.init.CreateJob "j" reqValid 0).SetJobContext
      "j").CancelJob "j" 5).2.jobs "j" =
      (lookupJob ((SimpleJobManager.init.CreateJob "j" reqValid
        0).SetJobContext "j").jobs "j").map (fun job =>
        { job with
          ctxCancelled := true
          status := "cancelled"
          message := "Job cancelled by user"
          error := "Job cancelled by user"
          completedAt := some 5 }) ∧
    (((SimpleJobManager.init.CreateJob "j" reqValid 0).SetJobContext
      "j").CancelJob "j" 5).2.activeJobCount =
      ((SimpleJobManager.init.CreateJob "j" reqValid 0).SetJobContext
        "j").activeJobCount - 1 :=
  (cancelJob_spec ((SimpleJobManager.init.CreateJob "j" reqValid 0).SetJobContext
    "j") JobManager.init "j" 5).1 rfl

/-- In every reachable async-manager state, a queued job has recorded no
results and no start time. -/
theorem queued_no_results (jm : JobManager) (h : JMReachable jm) :
    ∀ p ∈ jm.jobs, p.2.status = "queued" →
      p.2.results = none ∧ p.2.startedAt = none := by
  induction h with
  | init => intro p hp; cases hp
  | step jm op hr ih =>
      intro p hp hq
      cases op with
      | createJob id request now =>
          simp only [JMOp.apply, JobManager.CreateJob, insertJob] at hp
          rcases List.mem_cons.mp hp with rfl | hmem
          · exact ⟨rfl, rfl⟩
          · exact ih p (List.mem_of_mem_filter hmem) hq
      | startJob id now =>
          simp only [JMOp.apply] at hp
          cases hs : jm.StartJob id now with
          | error e => simp only [hs] at hp; exact ih p hp hq
          | ok jm3 =>
              simp only [hs] at hp
              unfold JobManager.StartJob at hs
              cases hl : lookupJob jm.jobs id with
              | none => simp only [hl] at hs; cases hs
              | some job =>
                  simp only [hl] at hs
                  by_cases hnq : job.status ≠ "queued"
                  · rw [if_pos hnq] at hs; cases hs
                  · rw [if_neg hnq] at hs
                    cases hs
                    rcases mem_updateJob hp with hmem | ⟨q, hqm, hqid, rfl⟩
                    · exact ih p hmem hq
                    · simp at hq
      | cancelJob id now =>
          simp only [JMOp.apply] at hp
          cases hs : jm.CancelJob id now with
          | error e => simp only [hs] at hp; exact ih p hp hq
          | ok jm3 =>
              simp only [hs] at hp
              unfold JobManager.CancelJob at hs
              cases hl : lookupJob jm.jobs id with
              | none => simp only [hl] at hs; cases hs
              | some job =>
                  simp only [hl] at hs
                  by_cases hnr : job.status ≠ "running"
                  · rw [if_pos hnr] at hs; cases hs
                  · rw [if_neg hnr] at hs
                    cases hs
                    rcases mem_updateJob hp with hmem | ⟨q, hqm, hqid, rfl⟩
                    · exact ih p hmem hq
                    · simp at hq
      | executeJobFinish id benchErr results now =>
          simp only [JMOp.apply, JobManager.ExecuteJobFinish] at hp
          rcases mem_updateJob hp with hmem | ⟨q, hqm, hqid, rfl⟩
          · exact ih p hmem hq
          · cases benchErr <;> simp at hq
      | cleanupOldJobs maxAge now =>
          simp only [JMOp.apply, JobManager.CleanupOldJobs] at hp
          exact ih p (List.mem_of_mem_filter hp) hq

/-- C6 (amended): in every reachable async-manager state, requesting
cancellation of a job that is still `"queued"` does NOT transition it to
cancelled: `CancelJob` returns an error and the registry is unchanged, the
job stays queued, and (being queued) it has zero round results recorded.
The direct queued→cancelled transition claimed by the spec does not exist
— only running jobs can be cancelled. -/
theorem cancelQueued_spec (jm : JobManager) (h : JMReachable jm)
    (id : String) (now : Int) (job : BenchmarkJob)
    (hlk : lookupJob jm.jobs id = some job) (hq : job.status = "queued") :
    job.results = none ∧
    (jm.CancelJob id now).isOk = false ∧
    JMOp.apply (.cancelJob id now) jm = jm := by
  have hres := (queued_no_results jm h (id, job) (lookupJob_mem hlk) hq).1
  have herr : ∃ e, jm.CancelJob id now = Except.error e := by
    unfold JobManager.CancelJob
    simp only [hlk]
    rw [if_pos (by rw [hq]; decide)]
    exact ⟨_, rfl⟩
  obtain ⟨e, he⟩ := herr
  refine ⟨hres, ?_, ?_⟩
  · rw [he]
    rfl
  · simp [JMOp.apply, he]

/-- C6 witness: cancel requested immediately after `CreateJob` on the
freshly created (queued) job fails and leaves the state unchanged. -/
theorem cancelQueued_spec_witness :
    ((JobManager.init.CreateJob "j" reqValid 0).CancelJob "j" 5).isOk =
      false ∧
    JMOp.apply (.cancelJob "j" 5) (JobManager.init.CreateJob "j" reqValid 0) =
      JobManager.init.CreateJob "j" reqValid 0 :=
  (cancelQueued_spec (JobManager.init.CreateJob "j" reqValid 0)
    (JMReachable.step JobManager.init (.createJob "j" reqValid 0)
      JMReachable.init)
    "j" 5 _ rfl rfl).2

/-- C6 counterexample: the claim's queued→cancelled transition is refuted
concretely — after `CreateJob`, `CancelJob` on the still-queued job returns
an error and the job's status remains `"queued"` with no results. -/
theorem cancelQueued_counterexample :
    (JobManager.init.CreateJob "j" reqValid 0).CancelJob "j" 5 =
      Except.error "job j is not running (current: queued)" ∧
    (lookupJob (JMOp.apply (.cancelJob "j" 5)
      (JobManager.init.CreateJob "j" reqValid 0)).jobs "j").map
        BenchmarkJob.status = some "queued" ∧
    (lookupJob (JMOp.apply (.cancelJob "j" 5)
      (JobManager.init.CreateJob "j" reqValid 0)).jobs "j").map
        BenchmarkJob.results = some none :=
  ⟨rfl, rfl, rfl⟩

theorem lookupJob_filter_none {α : Type} {m : List (String × α)}
    (q : String × α → Bool) {id : String} (h : lookupJob m id = none) :
    lookupJob (m.filter q) id = none := by
  rw [lookupJob_eq_none_iff] at h ⊢
  intro hmem
  apply h
  simp only [List.mem_map] at hmem ⊢
  obtain ⟨p, hp, hfst⟩ := hmem
  exact ⟨p, List.mem_of_mem_filter hp, hfst⟩

theorem lookupJob_filter_of_nodup {α : Type} {m : List (String × α)}
    (q : String × α → Bool) (id : String) (hnd : nodupKeys m) :
    lookupJob (m.filter q) id =
      (lookupJob m id).bind fun j => if q (id, j) = true then some j else none := by
  induction m with
  | nil => simp [lookupJob]
  | cons p rest ih =>
      obtain ⟨k, j⟩ := p
      have hnd2 : nodupKeys rest := by
        unfold nodupKeys at hnd ⊢
        simpa using hnd.of_cons
      have hknotin : k ∉ rest.map Prod.fst := by
        unfold nodupKeys at hnd
        simpa using (List.nodup_cons.mp hnd).1
      by_cases hk : k = id
      · subst hk
        have hrest : lookupJob rest k = none :=
          (lookupJob_eq_none_iff rest k).mpr hknotin
        rw [List.filter_cons]
        by_cases hq : q (k, j) = true
        · simp [hq, lookupJob]
        · simp only [hq, Bool.false_eq_true, if_false, lookupJob]
          rw [lookupJob_filter_none q hrest]
          simp [lookupJob, hq]
      · rw [List.filter_cons]
        by_cases hq : q (k, j) = true
        · simp only [hq, if_true, lookupJob, hk, if_false]
          rw [ih hnd2]
          try simp [lookupJob, hk]
        · simp only [hq, Bool.false_eq_true, if_false]
          rw [ih hnd2]
          try simp [lookupJob, hk]

theorem lookup_update_op (m : JobMap) (id id2 : String)
    (f : SimpleJob → SimpleJob) (j j2 : SimpleJob)
    (hpre : lookupJob m id = some j)
    (hpost : lookupJob (updateJob m id2 f) id = some j2) :
    (id ≠ id2 ∧ j2 = j) ∨ (id = id2 ∧ j2 = f j) := by
  rw [lookupJob_updateJob] at hpost
  by_cases hid : id = id2
  · subst hid
    rw [if_pos rfl, hpre] at hpost
    right
    exact ⟨rfl, (Option.some.inj hpost).symm⟩
  · rw [if_neg hid, hpre] at hpost
    left
    exact ⟨hid, (Option.some.inj hpost).symm⟩

/-- C1 (amended): for every operation applied to a registry with distinct
keys (and fresh UUIDs for `CreateJob`), a registered job's status either
stays unchanged, or moves running→{completed, failed, cancelled}, or is
overwritten by `CompleteJob`/`FailJob` (also on `RunBenchmark`'s
cancellation-observation path, which calls `FailJob`): these two set their
terminal status on ANY existing job, whatever its current status, so a
terminal status is not preserved by them — while `CancelJob` and every
other operation never move a job out of a terminal status. -/
theorem simpleStatus_transitions (op : SJOp) (jm : SimpleJobManager)
    (hnd : nodupKeys jm.jobs)
    (hfresh : ∀ id2 request now, op = SJOp.createJob id2 request now →
      lookupJob jm.jobs id2 = none)
    (id : String) (j j2 : SimpleJob)
    (hpre : lookupJob jm.jobs id = some j)
    (hpost : lookupJob (op.apply jm).jobs id = some j2) :
    j2.status = j.status ∨
    (j.status = "running" ∧
      (j2.status = "completed" ∨ j2.status = "failed" ∨
       j2.status = "cancelled")) ∨
    ((∃ result now, op = SJOp.completeJob id result now) ∧
      j2.status = "completed") ∨
    ((∃ errorMsg now, op = SJOp.failJob id errorMsg now) ∧
      j2.status = "failed") ∨
    ((∃ now, op = SJOp.runBenchmarkObserveCancel id now) ∧
      j2.status = "failed") := by
  cases op with
  | createJob id2 request now =>
      have hf := hfresh id2 request now rfl
      simp only [SJOp.apply, SimpleJobManager.CreateJob] at hpost
      rw [lookupJob_insertJob] at hpost
      by_cases hid : id = id2
      · subst hid
        rw [hf] at hpre
        cases hpre
      · rw [if_neg hid, hpre] at hpost
        left
        rw [(Option.some.inj hpost).symm]
  | setJobContext id2 =>
      simp only [SJOp.apply, SimpleJobManager.SetJobContext] at hpost
      cases hl2 : lookupJob jm.jobs id2 with
      | none =>
          simp only [hl2] at hpost
          rw [hpre] at hpost
          left
          rw [(Option.some.inj hpost).symm]
      | some job0 =>
          simp only [hl2] at hpost
          rcases lookup_update_op _ _ _ _ _ _ hpre hpost with ⟨_, rfl⟩ | ⟨_, rfl⟩
          · left; rfl
          · left; rfl
  | updateJobProgress id2 progress message =>
      simp only [SJOp.apply, SimpleJobManager.UpdateJobProgress] at hpost
      cases hl2 : lookupJob jm.jobs id2 with
      | none =>
          simp only [hl2] at hpost
          rw [hpre] at hpost
          left
          rw [(Option.some.inj hpost).symm]
      | some job0 =>
          simp only [hl2] at hpost
          rcases lookup_update_op _ _ _ _ _ _ hpre hpost with ⟨_, rfl⟩ | ⟨_, rfl⟩
          · left; rfl
          · left; rfl
  | completeJob id2 result now =>
      simp only [SJOp.apply, SimpleJobManager.CompleteJob] at hpost
      cases hl2 : lookupJob jm.jobs id2 with
      | none =>
          simp only [hl2] at hpost
          rw [hpre] at hpost
          left
          rw [(Option.some.inj hpost).symm]
      | some job0 =>
          simp only [hl2] at hpost
          rcases lookup_update_op _ _ _ _ _ _ hpre hpost with ⟨_, rfl⟩ | ⟨heq, rfl⟩
          · left; rfl
          · subst heq
            exact Or.inr (Or.inr (Or.inl ⟨⟨result, now, rfl⟩, rfl⟩))
  | failJob id2 errorMsg now =>
      simp only [SJOp.apply, SimpleJobManager.FailJob] at hpost
      cases hl2 : lookupJob jm.jobs id2 with
      | none =>
          simp only [hl2] at hpost
          rw [hpre] at hpost
          left
          rw [(Option.some.inj hpost).symm]
      | some job0 =>
          simp only [hl2] at hpost
          rcases lookup_update_op _ _ _ _ _ _ hpre hpost with ⟨_, rfl⟩ | ⟨heq, rfl⟩
          · left; rfl
          · subst heq
            exact Or.inr (Or.inr (Or.inr (Or.inl ⟨⟨errorMsg, now, rfl⟩, rfl⟩)))
  | runBenchmarkObserveCancel id2 now =>
      simp only [SJOp.apply, SimpleJobManager.RunBenchmarkObserveCancel,
        SimpleJobManager.FailJob] at hpost
      cases hl2 : lookupJob jm.jobs id2 with
      | none =>
          simp only [hl2] at hpost
          rw [hpre] at hpost
          left
          rw [(Option.some.inj hpost).symm]
      | some job0 =>
          simp only [hl2] at hpost
          rcases lookup_update_op _ _ _ _ _ _ hpre hpost with ⟨_, rfl⟩ | ⟨heq, rfl⟩
          · left; rfl
          · subst heq
            exact Or.inr (Or.inr (Or.inr (Or.inr ⟨⟨now, rfl⟩, rfl⟩)))
  | cancelJob id2 now =>
      simp only [SJOp.apply] at hpost
      unfold SimpleJobManager.CancelJob at hpost
      cases hl2 : lookupJob jm.jobs id2 with
      | none =>
          simp only [hl2] at hpost
          rw [hpre] at hpost
          left
          rw [(Option.some.inj hpost).symm]
      | some job0 =>
          simp only [hl2] at hpost
          by_cases hcond : job0.status = "running" ∧ job0.hasCancelFunc = true
          · simp only [if_pos hcond] at hpost
            rcases lookup_update_op _ _ _ _ _ _ hpre hpost with ⟨_, rfl⟩ | ⟨heq, rfl⟩
            · left; rfl
            · subst heq
              rw [hpre] at hl2
              cases Option.some.inj hl2
              exact Or.inr (Or.inl ⟨hcond.1, Or.inr (Or.inr rfl)⟩)
          · simp only [if_neg hcond] at hpost
            rw [hpre] at hpost
            left
            rw [(Option.some.inj hpost).symm]
  | removeJob id2 =>
      simp only [SJOp.apply, SimpleJobManager.RemoveJob] at hpost
      cases hl2 : lookupJob jm.jobs id2 with
      | none =>
          simp only [hl2] at hpost
          rw [hpre] at hpost
          left
          rw [(Option.some.inj hpost).symm]
      | some job0 =>
          simp only [hl2] at hpost
          rw [lookupJob_eraseJob] at hpost
          by_cases hid : id = id2
          · rw [if_pos hid] at hpost
            cases hpost
          · rw [if_neg hid, hpre] at hpost
            left
            rw [(Option.some.inj hpost).symm]
  | cleanupOldJobs now =>
      simp only [SJOp.apply, SimpleJobManager.CleanupOldJobs] at hpost
      rw [lookupJob_filter_of_nodup _ _ hnd, hpre] at hpost
      simp only [Option.some_bind'] at hpost
      by_cases hq : decide (¬ j.createdAt < now - 3600) = true
      · rw [if_pos hq] at hpost
        left
        rw [(Option.some.inj hpost).symm]
      · rw [if_neg hq] at hpost
        cases hpost

/-- The job record that `CreateJob "j"` registers at time 0. -/
def sampleCreatedJob : SimpleJob where
  id := "j"
  status := "running"
  progress := 0
  message := "Starting benchmark..."
  result := none
  error := ""
  createdAt := 0
  completedAt := none
  request := reqValid
  hasCancelFunc := false
  ctxCancelled := false

/-- C1 witness: a progress update leaves the status of the single
registered job unchanged, by the amended transition theorem. -/
theorem simpleStatus_transitions_witness :
    ({ sampleCreatedJob with progress := 50, message := "m" } : SimpleJob).status =
      sampleCreatedJob.status := by
  rcases simpleStatus_transitions (SJOp.updateJobProgress "j" 50 "m")
      (SimpleJobManager.init.CreateJob "j" reqValid 0)
      (by unfold nodupKeys; decide)
      (by intro id2 r n h; cases h) "j" sampleCreatedJob
      { sampleCreatedJob with progress := 50, message := "m" } rfl rfl with
    h | h | h | h | h
  · exact h
  · rcases h.2 with h2 | h2 | h2 <;> exact absurd h2 (by decide)
  · obtain ⟨r, n, hh⟩ := h.1
    exact SJOp.noConfusion hh
  · obtain ⟨msg, n, hh⟩ := h.1
    exact SJOp.noConfusion hh
  · obtain ⟨n, hh⟩ := h.1
    exact SJOp.noConfusion hh

/-- C1 counterexample: `CreateJob; CompleteJob; FailJob` moves the job from
the terminal status `"completed"` to `"failed"` — a later operation changes
a terminal status. -/
theorem simpleStatus_counterexample :
    (lookupJob ((SimpleJobManager.init.CreateJob "j" reqValid
      0).CompleteJob "j" none 1).jobs "j").map SimpleJob.status =
      some "completed" ∧
    (lookupJob (((SimpleJobManager.init.CreateJob "j" reqValid
      0).CompleteJob "j" none 1).FailJob "j" "boom" 2).jobs "j").map
      SimpleJob.status = some "failed" ∧
    ("failed" : String) ≠ "completed" :=
  ⟨rfl, rfl, by decide⟩

/-- C2: when the benchmark runner observes the cancellation signal of a job
already marked cancelled by `CancelJob`, it calls
`FailJob(id, "Job cancelled by user")` (simple_job_manager.go lines
715–723), so the job ends with status `"failed"` and the generic message
`"Benchmark failed"` instead of staying `"cancelled"` with cancellation
text. -/
theorem runBenchmarkObserveCancel_bug :
    (lookupJob (((SimpleJobManager.init.CreateJob "j" reqValid
      0).SetJobContext "j").CancelJob "j" 1).2.jobs "j").map
      SimpleJob.status = some "cancelled" ∧
    (lookupJob ((((SimpleJobManager.init.CreateJob "j" reqValid
      0).SetJobContext "j").CancelJob "j" 1).2.RunBenchmarkObserveCancel
      "j" 2).jobs "j").map SimpleJob.status = some "failed" ∧
    (lookupJob ((((SimpleJobManager.init.CreateJob "j" reqValid
      0).SetJobContext "j").CancelJob "j" 1).2.RunBenchmarkObserveCancel
      "j" 2).jobs "j").map SimpleJob.message = some "Benchmark failed" ∧
    ("failed" : String) ≠ "cancelled" :=
  ⟨rfl, rfl, rfl, by decide⟩

theorem countRunning_pos_of_lookup_running (m : JobMap) (id : String)
    (j : SimpleJob) (hlk : lookupJob m id = some j)
    (hrun : j.status = "running") : 0 < countRunning m := by
  induction m with
  | nil => simp [lookupJob] at hlk
  | cons p rest ih =>
      obtain ⟨k, j2⟩ := p
      by_cases hk : k = id
      · subst hk
        simp [lookupJob] at hlk
        subst hlk
        simp [countRunning, List.filter_cons, hrun]
      · simp [lookupJob, hk] at hlk
        have := ih hlk
        unfold countRunning at this ⊢
        rw [List.filter_cons]
        split
        · simp
        · exact this

/-- Operation sequences on the `SimpleJobManager` in which terminal-state
setters are only invoked on running (or unknown) jobs, removal only on
running or unknown jobs, and cleanup only when no stale job is still
running — the discipline of the intended job lifecycle. -/
inductive SJSafeReachable : SimpleJobManager → Prop where
  | init : SJSafeReachable SimpleJobManager.init
  | createJob (jm : SimpleJobManager) (h : SJSafeReachable jm) (id : String)
      (request : BenchmarkRequest) (now : Int)
      (hfresh : lookupJob jm.jobs id = none) :
      SJSafeReachable (jm.CreateJob id request now)
  | setJobContext (jm : SimpleJobManager) (h : SJSafeReachable jm)
      (id : String) : SJSafeReachable (jm.SetJobContext id)
  | updateJobProgress (jm : SimpleJobManager) (h : SJSafeReachable jm)
      (id : String) (progress : Int) (message : String) :
      SJSafeReachable (jm.UpdateJobProgress id progress message)
  | completeJob (jm : SimpleJobManager) (h : SJSafeReachable jm) (id : String)
      (result : Option GoValue) (now : Int)
      (hrun : ∀ job, lookupJob jm.jobs id = some job →
        job.status = "running") :
      SJSafeReachable (jm.CompleteJob id result now)
  | failJob (jm : SimpleJobManager) (h : SJSafeReachable jm) (id : String)
      (errorMsg : String) (now : Int)
      (hrun : ∀ job, lookupJob jm.jobs id = some job →
        job.status = "running") :
      SJSafeReachable (jm.FailJob id errorMsg now)
  | cancelJob (jm : SimpleJobManager) (h : SJSafeReachable jm) (id : String)
      (now : Int) : SJSafeReachable (jm.CancelJob id now).2
  | removeJob (jm : SimpleJobManager) (h : SJSafeReachable jm) (id : String)
      (hrun : ∀ job, lookupJob jm.jobs id = some job →
        job.status = "running") :
      SJSafeReachable (jm.RemoveJob id)
  | cleanupOldJobs (jm : SimpleJobManager) (h : SJSafeReachable jm)
      (now : Int)
      (hold : ∀ p ∈ jm.jobs, p.2.createdAt < now - 3600 →
        p.2.status ≠ "running") :
      SJSafeReachable (jm.CleanupOldJobs now)

/-- C3 (amended): the active-job counter equals the number of running jobs
in every state reachable under the intended lifecycle discipline
(`SJSafeReachable`): `CompleteJob`/`FailJob`/`RemoveJob` applied only to
running or unknown jobs, cleanup only when stale entries are not running,
fresh UUIDs on creation.  Outside that discipline the counter drifts (see
the counterexample: a repeated `CompleteJob` decrements it although no
running job changed). -/
theorem activeCounter_invariant (jm : SimpleJobManager)
    (h : SJSafeReachable jm) :
    nodupKeys jm.jobs ∧ jm.activeJobCount = (countRunning jm.jobs : Int) := by
  induction h with
  | init =>
      constructor
      · exact List.nodup_nil
      · rfl
  | createJob jm h id request now hfresh ih =>
      obtain ⟨hnd, hcnt⟩ := ih
      constructor
      · exact nodupKeys_insertJob hnd
      · unfold SimpleJobManager.CreateJob
        simp only
        rw [countRunning_insertJob _ _ _ hfresh]
        simp
        omega
  | setJobContext jm h id ih =>
      obtain ⟨hnd, hcnt⟩ := ih
      unfold SimpleJobManager.SetJobContext
      cases hl : lookupJob jm.jobs id with
      | none => exact ⟨hnd, hcnt⟩
      | some job =>
          simp only
          refine ⟨nodupKeys_updateJob hnd, ?_⟩
          rw [countRunning_updateJob_preserve jm.jobs id
            (fun j => { j with hasCancelFunc := true, ctxCancelled := false })
            (fun j => rfl)]
          exact hcnt
  | updateJobProgress jm h id progress message ih =>
      obtain ⟨hnd, hcnt⟩ := ih
      unfold SimpleJobManager.UpdateJobProgress
      cases hl : lookupJob jm.jobs id with
      | none => exact ⟨hnd, hcnt⟩
      | some job =>
          simp only
          refine ⟨nodupKeys_updateJob hnd, ?_⟩
          rw [countRunning_updateJob_preserve jm.jobs id
            (fun j => { j with progress := progress, message := message })
            (fun j => rfl)]
          exact hcnt
  | completeJob jm h id result now hrun ih =>
      obtain ⟨hnd, hcnt⟩ := ih
      unfold SimpleJobManager.CompleteJob
      cases hl : lookupJob jm.jobs id with
      | none => exact ⟨hnd, hcnt⟩
      | some job =>
          simp only
          refine ⟨nodupKeys_updateJob hnd, ?_⟩
          have hjrun := hrun job hl
          have hdec := countRunning_updateJob_toNonRunning jm.jobs id
            (fun j => { j with
              status := "completed"
              progress := 100
              message := "Benchmark completed successfully"
              result := result
              completedAt := some now }) job
            hnd hl hjrun
            (fun j2 => by show ("completed" : String) ≠ "running"; decide)
          have hpos := countRunning_pos_of_lookup_running jm.jobs id job hl hjrun
          rw [if_pos (by omega)]
          omega
  | failJob jm h id errorMsg now hrun ih =>
      obtain ⟨hnd, hcnt⟩ := ih
      unfold SimpleJobManager.FailJob
      cases hl : lookupJob jm.jobs id with
      | none => exact ⟨hnd, hcnt⟩
      | some job =>
          simp only
          refine ⟨nodupKeys_updateJob hnd, ?_⟩
          have hjrun := hrun job hl
          have hdec := countRunning_updateJob_toNonRunning jm.jobs id
            (fun j => { j with
              status := "failed"
              message := "Benchmark failed"
              error := errorMsg
              completedAt := some now }) job
            hnd hl hjrun
            (fun j2 => by show ("failed" : String) ≠ "running"; decide)
          have hpos := countRunning_pos_of_lookup_running jm.jobs id job hl hjrun
          rw [if_pos (by omega)]
          omega
  | cancelJob jm h id now ih =>
      obtain ⟨hnd, hcnt⟩ := ih
      unfold SimpleJobManager.CancelJob
      cases hl : lookupJob jm.jobs id with
      | none => exact ⟨hnd, hcnt⟩
      | some job =>
          simp only
          by_cases hcond : job.status = "running" ∧ job.hasCancelFunc = true
          · rw [if_pos hcond]
            dsimp only
            refine ⟨nodupKeys_updateJob hnd, ?_⟩
            have hdec := countRunning_updateJob_toNonRunning jm.jobs id
              (fun j => { j with
                ctxCancelled := true
                status := "cancelled"
                message := "Job cancelled by user"
                error := "Job cancelled by user"
                completedAt := some now }) job
              hnd hl hcond.1
              (fun j2 => by show ("cancelled" : String) ≠ "running"; decide)
            omega
          · rw [if_neg hcond]
            exact ⟨hnd, hcnt⟩
  | removeJob jm h id hrun ih =>
      obtain ⟨hnd, hcnt⟩ := ih
      unfold SimpleJobManager.RemoveJob
      cases hl : lookupJob jm.jobs id with
      | none => exact ⟨hnd, hcnt⟩
      | some job =>
          simp only
          refine ⟨nodupKeys_filter _ hnd, ?_⟩
          have hjrun := hrun job hl
          have hdec := countRunning_eraseJob_running jm.jobs id job hnd hl hjrun
          have hpos := countRunning_pos_of_lookup_running jm.jobs id job hl hjrun
          rw [if_pos (by omega)]
          have hdec2 : countRunning (List.filter (fun p =>
            decide (p.1 ≠ id)) jm.jobs) + 1 = countRunning jm.jobs := hdec
          omega
  | cleanupOldJobs jm h now hold ih =>
      obtain ⟨hnd, hcnt⟩ := ih
      unfold SimpleJobManager.CleanupOldJobs
      refine ⟨nodupKeys_filter _ hnd, ?_⟩
      simp only
      rw [countRunning_filter_keepRunning]
      · exact hcnt
      · intro p hp hprun
        by_cases hage : p.2.createdAt < now - 3600
        · exact absurd hprun (hold p hp hage)
        · simp [hage]

/-- C3 witness: under the discipline — create a fresh job, then complete it
while running — the counter matches the running count (both return to 0). -/
theorem activeCounter_invariant_witness :
    nodupKeys ((SimpleJobManager.init.CreateJob "a" reqValid 0).CompleteJob
      "a" none 1).jobs ∧
    ((SimpleJobManager.init.CreateJob "a" reqValid 0).CompleteJob "a" none
      1).activeJobCount =
      (countRunning ((SimpleJobManager.init.CreateJob "a" reqValid
        0).CompleteJob "a" none 1).jobs : Int) :=
  activeCounter_invariant _
    (SJSafeReachable.completeJob _
      (SJSafeReachable.createJob _ SJSafeReachable.init "a" reqValid 0 rfl)
      "a" none 1
      (fun job hj => by cases Option.some.inj hj; rfl))

/-- C3 counterexample: `CreateJob a; CreateJob b; CompleteJob a;
CompleteJob a` — the second (unguarded) `CompleteJob` decrements the
counter again, leaving it at 0 while job `b` is still running. -/
theorem activeCounter_counterexample :
    ((((SimpleJobManager.init.CreateJob "a" reqValid 0).CreateJob "b"
      reqValid 0).CompleteJob "a" none 1).CompleteJob "a" none
      2).activeJobCount = 0 ∧
    countRunning ((((SimpleJobManager.init.CreateJob "a" reqValid
      0).CreateJob "b" reqValid 0).CompleteJob "a" none 1).CompleteJob "a"
      none 2).jobs = 1 ∧
    (0 : Int) ≠ (1 : Int) :=
  ⟨by decide, by decide, by decide⟩

theorem lookup_of_mem_nodup {α : Type} {m : List (String × α)} {id : String}
    {j : α} (hnd : nodupKeys m) (hmem : (id, j) ∈ m) :
    lookupJob m id = some j := by
  induction m with
  | nil => cases hmem
  | cons p rest ih =>
      obtain ⟨k, j2⟩ := p
      have hnd2 : nodupKeys rest := by
        unfold nodupKeys at hnd ⊢
        simpa using hnd.of_cons
      have hknotin : k ∉ rest.map Prod.fst := by
        unfold nodupKeys at hnd
        simpa using (List.nodup_cons.mp hnd).1
      rcases List.mem_cons.mp hmem with heq | hmem2
      · cases heq
        simp [lookupJob]
      · have hne : k ≠ id := by
          intro hk
          subst hk
          exact hknotin (by simpa using List.mem_map_of_mem Prod.fst hmem2)
        simp [lookupJob, hne, ih hnd2 hmem2]

/-- Shorthand: the three terminal statuses. -/
def isTerminalStatus (s : String) : Prop :=
  s = "completed" ∨ s = "failed" ∨ s = "cancelled"

theorem sj_completedAt_iff (jm : SimpleJobManager) (h : SJReachable jm) :
    ∀ p ∈ jm.jobs, (p.2.completedAt ≠ none ↔ isTerminalStatus p.2.status) := by
  induction h with
  | init => intro p hp; cases hp
  | step jm op hr hfresh ih =>
      intro p hp
      cases op with
      | createJob id request now =>
          simp only [SJOp.apply, SimpleJobManager.CreateJob, insertJob] at hp
          rcases List.mem_cons.mp hp with rfl | hmem
          · simp [isTerminalStatus]
          · exact ih p (List.mem_of_mem_filter hmem)
      | setJobContext id =>
          simp only [SJOp.apply, SimpleJobManager.SetJobContext] at hp
          cases hl : lookupJob jm.jobs id with
          | none => simp only [hl] at hp; exact ih p hp
          | some job =>
              simp only [hl] at hp
              rcases mem_updateJob hp with hmem | ⟨q, hqm, hqid, rfl⟩
              · exact ih p hmem
              · exact ih q hqm
      | updateJobProgress id progress message =>
          simp only [SJOp.apply, SimpleJobManager.UpdateJobProgress] at hp
          cases hl : lookupJob jm.jobs id with
          | none => simp only [hl] at hp; exact ih p hp
          | some job =>
              simp only [hl] at hp
              rcases mem_updateJob hp with hmem | ⟨q, hqm, hqid, rfl⟩
              · exact ih p hmem
              · exact ih q hqm
      | completeJob id result now =>
          simp only [SJOp.apply, SimpleJobManager.CompleteJob] at hp
          cases hl : lookupJob jm.jobs id with
          | none => simp only [hl] at hp; exact ih p hp
          | some job =>
              simp only [hl] at hp
              rcases mem_updateJob hp with hmem | ⟨q, hqm, hqid, rfl⟩
              · exact ih p hmem
              · simp [isTerminalStatus]
      | failJob id errorMsg now =>
          simp only [SJOp.apply, SimpleJobManager.FailJob] at hp
          cases hl : lookupJob jm.jobs id with
          | none => simp only [hl] at hp; exact ih p hp
          | some job =>
              simp only [hl] at hp
              rcases mem_updateJob hp with hmem | ⟨q, hqm, hqid, rfl⟩
              · exact ih p hmem
              · simp [isTerminalStatus]
      | cancelJob id now =>
          simp only [SJOp.apply] at hp
          unfold SimpleJobManager.CancelJob at hp
          cases hl : lookupJob jm.jobs id with
          | none => simp only [hl] at hp; exact ih p hp
          | some job =>
              simp only [hl] at hp
              by_cases hcond : job.status = "running" ∧ job.hasCancelFunc = true
              · simp only [if_pos hcond] at hp
                rcases mem_updateJob hp with hmem | ⟨q, hqm, hqid, rfl⟩
                · exact ih p hmem
                · simp [isTerminalStatus]
              · simp only [if_neg hcond] at hp
                exact ih p hp
      | removeJob id =>
          simp only [SJOp.apply, SimpleJobManager.RemoveJob] at hp
          cases hl : lookupJob jm.jobs id with
          | none => simp only [hl] at hp; exact ih p hp
          | some job =>
              simp only [hl, eraseJob] at hp
              exact ih p (List.mem_of_mem_filter hp)
      | cleanupOldJobs now =>
          simp only [SJOp.apply, SimpleJobManager.CleanupOldJobs] at hp
          exact ih p (List.mem_of_mem_filter hp)
      | runBenchmarkObserveCancel id now =>
          simp only [SJOp.apply, SimpleJobManager.RunBenchmarkObserveCancel,
            SimpleJobManager.FailJob] at hp
          cases hl : lookupJob jm.jobs id with
          | none => simp only [hl] at hp; exact ih p hp
          | some job =>
              simp only [hl] at hp
              rcases mem_updateJob hp with hmem | ⟨q, hqm, hqid, rfl⟩
              · exact ih p hmem
              · simp [isTerminalStatus]

theorem jm_completedAt_iff (jm : JobManager) (h : JMReachable jm) :
    nodupKeys jm.jobs ∧
    ∀ p ∈ jm.jobs, (p.2.completedAt ≠ none ↔ isTerminalStatus p.2.status) := by
  induction h with
  | init => exact ⟨List.nodup_nil, fun p hp => by cases hp⟩
  | step jm op hr ih =>
      obtain ⟨hnd, ih2⟩ := ih
      cases op with
      | createJob id request now =>
          refine ⟨nodupKeys_insertJob hnd, ?_⟩
          intro p hp
          simp only [JMOp.apply, JobManager.CreateJob, insertJob] at hp
          rcases List.mem_cons.mp hp with rfl | hmem
          · simp [isTerminalStatus]
          · exact ih2 p (List.mem_of_mem_filter hmem)
      | startJob id now =>
          simp only [JMOp.apply]
          cases hs : jm.StartJob id now with
          | error e => exact ⟨hnd, ih2⟩
          | ok jm3 =>
              unfold JobManager.StartJob at hs
              cases hl : lookupJob jm.jobs id with
              | none => simp only [hl] at hs; cases hs
              | some job =>
                  simp only [hl] at hs
                  by_cases hnq : job.status ≠ "queued"
                  · rw [if_pos hnq] at hs; cases hs
                  · rw [if_neg hnq] at hs
                    cases hs
                    push_neg at hnq
                    refine ⟨nodupKeys_updateJob hnd, ?_⟩
                    intro p hp
                    rcases mem_updateJob hp with hmem | ⟨q, hqm, hqid, rfl⟩
                    · exact ih2 p hmem
                    · subst hqid
                      have hquniq := lookup_of_mem_nodup hnd hqm
                      rw [hl] at hquniq
                      cases Option.some.inj hquniq
                      have hqiff := ih2 _ hqm
                      have hnotterm : ¬ isTerminalStatus q.2.status := by
                        rw [hnq]
                        intro hterm
                        rcases hterm with ht | ht | ht <;> exact absurd ht (by decide)
                      have hcnone : q.2.completedAt = none := by
                        by_contra hc
                        exact hnotterm (hqiff.mp hc)
                      show q.2.completedAt ≠ none ↔ isTerminalStatus "running"
                      rw [hcnone]
                      simp [isTerminalStatus]
      | cancelJob id now =>
          simp only [JMOp.apply]
          cases hs : jm.CancelJob id now with
          | error e => exact ⟨hnd, ih2⟩
          | ok jm3 =>
              unfold JobManager.CancelJob at hs
              cases hl : lookupJob jm.jobs id with
              | none => simp only [hl] at hs; cases hs
              | some job =>
                  simp only [hl] at hs
                  by_cases hnr : job.status ≠ "running"
                  · rw [if_pos hnr] at hs; cases hs
                  · rw [if_neg hnr] at hs
                    cases hs
                    refine ⟨nodupKeys_updateJob hnd, ?_⟩
                    intro p hp
                    rcases mem_updateJob hp with hmem | ⟨q, hqm, hqid, rfl⟩
                    · exact ih2 p hmem
                    · simp [isTerminalStatus]
      | executeJobFinish id benchErr results now =>
          refine ⟨nodupKeys_updateJob hnd, ?_⟩
          intro p hp
          simp only [JMOp.apply, JobManager.ExecuteJobFinish] at hp
          rcases mem_updateJob hp with hmem | ⟨q, hqm, hqid, rfl⟩
          · exact ih2 p hmem
          · cases benchErr <;> simp [isTerminalStatus]
      | cleanupOldJobs maxAge now =>
          refine ⟨nodupKeys_filter _ hnd, ?_⟩
          intro p hp
          simp only [JMOp.apply, JobManager.CleanupOldJobs] at hp
          exact ih2 p (List.mem_of_mem_filter hp)

/-- C10: in every registry state reachable by the job-manager operations
(of either manager; the uncalled `AddJob` dead code excluded), a job's
`CompletedAt` is non-nil exactly when its status is terminal
(completed/failed/cancelled): terminal setters stamp the timestamp
together with the status, and nothing stamps it on a queued or running
job. -/
theorem completedAt_iff_terminal :
    (∀ jm : SimpleJobManager, SJReachable jm → ∀ p ∈ jm.jobs,
      (p.2.completedAt ≠ none ↔ isTerminalStatus p.2.status)) ∧
    (∀ jm : JobManager, JMReachable jm → ∀ p ∈ jm.jobs,
      (p.2.completedAt ≠ none ↔ isTerminalStatus p.2.status)) :=
  ⟨fun jm h => sj_completedAt_iff jm h,
   fun jm h => (jm_completedAt_iff jm h).2⟩

/-- The record after `CompleteJob "j"` at time 1. -/
def sampleCompletedJob : SimpleJob :=
  { sampleCreatedJob with
    status := "completed"
    progress := 100
    message := "Benchmark completed successfully"
    result := none
    completedAt := some 1 }

/-- C10 witness: the completed job of a concrete two-step run carries a
completion timestamp iff its status is terminal. -/
theorem completedAt_iff_terminal_witness :
    ((("j", sampleCompletedJob) : String × SimpleJob).2.completedAt ≠ none ↔
      isTerminalStatus (("j", sampleCompletedJob) :
        String × SimpleJob).2.status) :=
  completedAt_iff_terminal.1
    ((SimpleJobManager.init.CreateJob "j" reqValid 0).CompleteJob "j" none 1)
    (SJReachable.step _ (SJOp.completeJob "j" none 1)
      (SJReachable.step _ (SJOp.createJob "j" reqValid 0) SJReachable.init
        (by intro id r n h; cases h; rfl))
      (by intro id r n h; exact SJOp.noConfusion h))
    ("j", sampleCompletedJob)
    (by show ("j", sampleCompletedJob) ∈ [("j", sampleCompletedJob)]
        exact List.mem_cons_self _ _)

mutual

/-- True when a `raw` composite hiding a non-finite float occurs in the
value: the only kind of non-finiteness `sanitizeAnyValue` cannot remove. -/
def hasBadRaw : GoValue → Bool
  | .null => false
  | .boolv _ => false
  | .flt _ => false
  | .intv _ => false
  | .str _ => false
  | .arr xs => hasBadRawList xs
  | .obj fields => hasBadRawFields fields
  | .raw b => b

/-- `hasBadRaw` over array elements. -/
def hasBadRawList : List GoValue → Bool
  | [] => false
  | v :: vs => hasBadRaw v || hasBadRawList vs

/-- `hasBadRaw` over object values. -/
def hasBadRawFields : List (String × GoValue) → Bool
  | [] => false
  | (_, v) :: ps => hasBadRaw v || hasBadRawFields ps

end

mutual

theorem sanitizeAny_hnf : ∀ v : GoValue,
    (sanitizeAnyValue v).hasNonFinite = hasBadRaw v
  | .null => rfl
  | .boolv _ => rfl
  | .flt (.finite _) => rfl
  | .flt .nan => rfl
  | .flt .posInf => rfl
  | .flt .negInf => rfl
  | .intv _ => rfl
  | .str s => by
      unfold sanitizeAnyValue
      split <;> rfl
  | .arr xs => sanitizeAnyItems_hnf xs
  | .obj fields => sanitizeAnyFields_hnf fields
  | .raw _ => rfl

theorem sanitizeAnyItems_hnf : ∀ xs : List GoValue,
    GoValue.hasNonFiniteList (sanitizeAnyItems xs) = hasBadRawList xs
  | [] => rfl
  | v :: vs => by
      simp only [sanitizeAnyItems, GoValue.hasNonFiniteList, hasBadRawList,
        sanitizeAny_hnf v, sanitizeAnyItems_hnf vs]

theorem sanitizeAnyFields_hnf : ∀ ps : List (String × GoValue),
    GoValue.hasNonFiniteFields (sanitizeAnyFields ps) = hasBadRawFields ps
  | [] => rfl
  | (k, v) :: rest => by
      simp only [sanitizeAnyFields, GoValue.hasNonFiniteFields, hasBadRawFields,
        sanitizeAny_hnf v, sanitizeAnyFields_hnf rest]

end

mutual

theorem hasBadRaw_sanitizeEntry : ∀ v : GoValue,
    hasBadRaw (sanitizeEntry v) = hasBadRaw v
  | .null => rfl
  | .boolv _ => rfl
  | .flt (.finite _) => rfl
  | .flt .nan => rfl
  | .flt .posInf => rfl
  | .flt .negInf => rfl
  | .intv _ => rfl
  | .str _ => rfl
  | .arr xs => hasBadRaw_sanitizeItems xs
  | .obj fields => hasBadRaw_sanitizeBR fields
  | .raw _ => rfl

theorem hasBadRaw_sanitizeBR : ∀ ps : List (String × GoValue),
    hasBadRawFields (sanitizeBenchmarkResult ps) = hasBadRawFields ps
  | [] => rfl
  | (k, v) :: rest => by
      simp only [sanitizeBenchmarkResult, hasBadRawFields,
        hasBadRaw_sanitizeEntry v, hasBadRaw_sanitizeBR rest]

theorem hasBadRaw_sanitizeItems : ∀ xs : List GoValue,
    hasBadRawList (sanitizeItems xs) = hasBadRawList xs
  | [] => rfl
  | .obj m :: rest => by
      simp only [sanitizeItems, hasBadRawList, hasBadRaw,
        hasBadRaw_sanitizeBR m, hasBadRaw_sanitizeItems rest]
  | .null :: rest => by
      simp only [sanitizeItems, sanitizeFloatValue, hasBadRawList, hasBadRaw,
        hasBadRaw_sanitizeItems rest]
  | .boolv b :: rest => by
      simp only [sanitizeItems, sanitizeFloatValue, hasBadRawList, hasBadRaw,
        hasBadRaw_sanitizeItems rest]
  | .flt f :: rest => by
      cases f <;>
        simp only [sanitizeItems, sanitizeFloatValue, hasBadRawList, hasBadRaw,
          hasBadRaw_sanitizeItems rest]
  | .intv n :: rest => by
      simp only [sanitizeItems, sanitizeFloatValue, hasBadRawList, hasBadRaw,
        hasBadRaw_sanitizeItems rest]
  | .str str2 :: rest => by
      simp only [sanitizeItems, sanitizeFloatValue, hasBadRawList, hasBadRaw,
        hasBadRaw_sanitizeItems rest]
  | .arr ys :: rest => by
      simp only [sanitizeItems, sanitizeFloatValue, hasBadRawList, hasBadRaw,
        hasBadRaw_sanitizeItems rest]
  | .raw b :: rest => by
      simp only [sanitizeItems, sanitizeFloatValue, hasBadRawList, hasBadRaw,
        hasBadRaw_sanitizeItems rest]

end

theorem hasBadRawList_le_hnf (xs : List GoValue)
    (hall : ∀ v ∈ xs, hasBadRaw v = true → GoValue.hasNonFinite v = true) :
    hasBadRawList xs = true → GoValue.hasNonFiniteList xs = true := by
  induction xs with
  | nil => intro h; cases h
  | cons v vs ih =>
      intro h
      simp only [hasBadRawList, Bool.or_eq_true] at h
      simp only [GoValue.hasNonFiniteList, Bool.or_eq_true]
      rcases h with h1 | h2
      · exact Or.inl (hall v (by simp) h1)
      · exact Or.inr (ih (fun w hw => hall w (by simp [hw])) h2)

theorem hasBadRawFields_le_hnf (ps : List (String × GoValue))
    (hall : ∀ p ∈ ps, hasBadRaw p.2 = true → GoValue.hasNonFinite p.2 = true) :
    hasBadRawFields ps = true → GoValue.hasNonFiniteFields ps = true := by
  induction ps with
  | nil => intro h; cases h
  | cons p rest ih =>
      obtain ⟨k, v⟩ := p
      intro h
      simp only [hasBadRawFields, Bool.or_eq_true] at h
      simp only [GoValue.hasNonFiniteFields, Bool.or_eq_true]
      rcases h with h1 | h2
      · exact Or.inl (hall (k, v) (by simp) h1)
      · exact Or.inr (ih (fun w hw => hall w (by simp [hw])) h2)

theorem hasBadRaw_le_hnf : ∀ v : GoValue,
    hasBadRaw v = true → v.hasNonFinite = true
  | .null => fun h => by cases h
  | .boolv _ => fun h => by cases h
  | .flt _ => fun h => by cases h
  | .intv _ => fun h => by cases h
  | .str _ => fun h => by cases h
  | .arr xs => fun h =>
      hasBadRawList_le_hnf xs (fun v _ => hasBadRaw_le_hnf v) h
  | .obj fields => fun h =>
      hasBadRawFields_le_hnf fields (fun p _ => hasBadRaw_le_hnf p.2) h
  | .raw b => fun h => h
decreasing_by
  · rename_i hmem
    have hlt := List.sizeOf_lt_of_mem hmem
    simp
    omega
  · rename_i hmem
    have hlt := List.sizeOf_lt_of_mem hmem
    have h2 : sizeOf p.2 < sizeOf p := by
      obtain ⟨a, b⟩ := p
      simp
      try omega
    simp
    omega

/-- `hasNonFinite` on an optional value (absent field contributes
nothing). -/
def hasNonFiniteOpt : Option GoValue → Bool
  | none => false
  | some v => v.hasNonFinite

/-- `hasBadRaw` on an optional value. -/
def hasBadRawOpt : Option GoValue → Bool
  | none => false
  | some v => hasBadRaw v

theorem hasNonFiniteFields_append (a b : List (String × GoValue)) :
    GoValue.hasNonFiniteFields (a ++ b) =
      (GoValue.hasNonFiniteFields a || GoValue.hasNonFiniteFields b) := by
  induction a with
  | nil => simp [GoValue.hasNonFiniteFields]
  | cons p rest ih =>
      obtain ⟨k, v⟩ := p
      simp [GoValue.hasNonFiniteFields, ih, Bool.or_assoc]

theorem hnfList_map_intv (ls : List Int) :
    GoValue.hasNonFiniteList (ls.map GoValue.intv) = false := by
  induction ls with
  | nil => rfl
  | cons c rest ih => simp [GoValue.hasNonFiniteList, GoValue.hasNonFinite, ih]

theorem hnf_null : (GoValue.null).hasNonFinite = false := rfl

theorem hnf_str (s : String) : (GoValue.str s).hasNonFinite = false := rfl

theorem hnf_intv (n : ℤ) : (GoValue.intv n).hasNonFinite = false := rfl

theorem hnf_arr (xs : List GoValue) :
    (GoValue.arr xs).hasNonFinite = GoValue.hasNonFiniteList xs := rfl

theorem hnf_obj (fields : List (String × GoValue)) :
    (GoValue.obj fields).hasNonFinite = GoValue.hasNonFiniteFields fields := rfl

theorem encodeModel_hnf (m : Model) :
    (encodeModel m).hasNonFinite = false := by
  unfold encodeModel
  by_cases h : m.apiKey = "" <;>
    simp [h, hnf_obj, hasNonFiniteFields_append, GoValue.hasNonFiniteFields,
      hnf_str]

theorem encodeBenchmarkRequest_hnf (r : BenchmarkRequest) :
    (encodeBenchmarkRequest r).hasNonFinite = false := by
  unfold encodeBenchmarkRequest
  cases r.model2 with
  | none =>
      simp [hnf_obj, hasNonFiniteFields_append, GoValue.hasNonFiniteFields,
        hnf_str, hnf_intv, hnf_null, hnf_arr, hnfList_map_intv,
        encodeModel_hnf]
  | some m2 =>
      simp [hnf_obj, hasNonFiniteFields_append, GoValue.hasNonFiniteFields,
        hnf_str, hnf_intv, hnf_null, hnf_arr, hnfList_map_intv,
        encodeModel_hnf]

theorem encodeSimpleJob_hnf (job : SimpleJob) :
    (encodeSimpleJob job).hasNonFinite = hasNonFiniteOpt job.result := by
  unfold encodeSimpleJob
  cases hres : job.result with
  | none =>
      cases job.completedAt <;> by_cases herr : job.error = "" <;>
        simp [herr, hnf_obj, hasNonFiniteFields_append,
          GoValue.hasNonFiniteFields, hnf_str, hnf_intv, hasNonFiniteOpt,
          encodeBenchmarkRequest_hnf]
  | some v =>
      cases job.completedAt <;> by_cases herr : job.error = "" <;>
        simp [herr, hnf_obj, hasNonFiniteFields_append,
          GoValue.hasNonFiniteFields, hnf_str, hnf_intv, hasNonFiniteOpt,
          encodeBenchmarkRequest_hnf]

theorem hasBadRawOpt_firstPass (r : Option GoValue) :
    hasBadRawOpt (firstPassResult r) = hasBadRawOpt r := by
  cases r with
  | none => rfl
  | some v =>
      cases v with
      | obj m =>
          show hasBadRaw (.obj (sanitizeBenchmarkResult m)) = hasBadRaw (.obj m)
          show hasBadRawFields (sanitizeBenchmarkResult m) = hasBadRawFields m
          exact hasBadRaw_sanitizeBR m
      | null => rfl
      | boolv b => rfl
      | flt f => rfl
      | intv n => rfl
      | str s2 => rfl
      | arr xs => rfl
      | raw b => rfl

theorem hnfOpt_of_badRawOpt (r : Option GoValue)
    (h : hasBadRawOpt r = true) : hasNonFiniteOpt r = true := by
  cases r with
  | none => cases h
  | some v => exact hasBadRaw_le_hnf v h

theorem hnfOpt_map_sanitizeAny (r : Option GoValue) :
    hasNonFiniteOpt (r.map sanitizeAnyValue) = hasBadRawOpt r := by
  cases r with
  | none => rfl
  | some v =>
      show (sanitizeAnyValue v).hasNonFinite = hasBadRaw v
      exact sanitizeAny_hnf v

/-- A float64 is finite when it is neither NaN nor ±Inf. -/
def GoFloat.isFinite : GoFloat → Bool
  | .finite _ => true
  | _ => false

/-- C4 (amended): at the SSE serialization boundary (`SimpleJob.ToJSON`)
non-finite floats are replaced by `null` (`sanitizeFloatValue` /
`sanitizeAnyValue`), the emitted payload never contains a non-finite
value, and when even aggressive sanitization cannot make the result
marshallable (a non-traversed composite hides a non-finite float) the
reduced payload with only identifying fields and the explanatory message
is emitted; at the synchronous handler boundary however `sanitizeFloat`
replaces +Inf by `math.MaxFloat64` and −Inf/NaN by 0 — finite numbers,
NOT null — so there too no non-finite value escapes. -/
theorem toJSON_sanitization_spec :
    (∀ job : SimpleJob, (job.ToJSON).hasNonFinite = false) ∧
    (∀ (job : SimpleJob) (v : GoValue), job.result = some v →
      hasBadRaw v = true →
      job.ToJSON = encodeSimpleJob { job with
        result := none
        error := "Results contain invalid values and could not be serialized"
        request := BenchmarkRequest.zero }) ∧
    (sanitizeFloatValue (.flt .nan) = .null ∧
     sanitizeFloatValue (.flt .posInf) = .null ∧
     sanitizeFloatValue (.flt .negInf) = .null ∧
     sanitizeAnyValue (.flt .nan) = .null ∧
     sanitizeAnyValue (.flt .posInf) = .null ∧
     sanitizeAnyValue (.flt .negInf) = .null) ∧
    (∀ f : GoFloat, (sanitizeFloat f).isFinite = true) := by
  refine ⟨?_, ?_, ⟨rfl, rfl, rfl, rfl, rfl, rfl⟩, ?_⟩
  · intro job
    unfold SimpleJob.ToJSON
    split
    · split
      · rw [encodeSimpleJob_hnf]
        rfl
      · rename_i h2
        simpa using h2
    · rename_i h1
      simpa using h1
  · intro job v hres hbad
    have h1 : (encodeSimpleJob
        { job with result := firstPassResult job.result }).hasNonFinite = true := by
      rw [encodeSimpleJob_hnf]
      show hasNonFiniteOpt (firstPassResult job.result) = true
      apply hnfOpt_of_badRawOpt
      rw [hasBadRawOpt_firstPass, hres]
      exact hbad
    have h2 : (encodeSimpleJob
        { job with result := job.result.map sanitizeAnyValue }).hasNonFinite = true := by
      rw [encodeSimpleJob_hnf]
      show hasNonFiniteOpt (job.result.map sanitizeAnyValue) = true
      rw [hnfOpt_map_sanitizeAny, hres]
      exact hbad
    unfold SimpleJob.ToJSON
    rw [if_pos h1, if_pos h2]
  · intro f
    cases f <;> rfl

/-- A job whose result is a composite value hiding a non-finite float. -/
def jobBadResult : SimpleJob :=
  { sampleCreatedJob with result := some (GoValue.raw true) }

/-- C4 witness: for the unsanitizable result, `ToJSON` emits exactly the
reduced payload. -/
theorem toJSON_sanitization_spec_witness :
    jobBadResult.ToJSON = encodeSimpleJob { jobBadResult with
      result := none
      error := "Results contain invalid values and could not be serialized"
      request := BenchmarkRequest.zero } :=
  toJSON_sanitization_spec.2.1 jobBadResult (GoValue.raw true) rfl rfl

/-- C4 counterexample: at the synchronous handler boundary a +Inf
generation throughput is serialized as the finite number
`math.MaxFloat64`, not as `null` — the claim's "replaced by null at the
serialization boundary" fails there. -/
theorem sanitizeFloat_counterexample :
    (appendSanitizedResult 1 GoFloat.posInf (GoFloat.finite 0)
      (GoFloat.finite 0) (GoFloat.finite 0)).generationThroughput =
      GoFloat.finite maxFloat64 ∧
    encodeConcurrencyResult (appendSanitizedResult 1 GoFloat.posInf
      (GoFloat.finite 0) (GoFloat.finite 0) (GoFloat.finite 0)) =
      GoValue.obj [("concurrency", .intv 1),
        ("generationThroughput", .flt (.finite maxFloat64)),
        ("promptThroughput", .flt (.finite 0)),
        ("minTtft", .flt (.finite 0)), ("maxTtft", .flt (.finite 0))] ∧
    GoValue.flt (GoFloat.finite maxFloat64) ≠ GoValue.null :=
  ⟨rfl, rfl, fun h => GoValue.noConfusion h⟩
